import Mathlib

/-! A shallow embedding of the shell smallsh (`smallsh.c` and `smallshlib.c`).

The development models the shell's main loop (`main` in `smallsh.c`) as a step
function on an explicit shell state, with every answer of the operating system
(poll results, the line read, `open`, `fork`, `waitpid`, `chdir`) supplied by an
environment record.  Strings are lists of characters, C `int`s are `Int`,
undefined behaviour (null or indeterminate pointers, out-of-bounds array
accesses) is an explicit `none` / `Outcome.undefined`.
-/

namespace SmallShell

/-! ## Constants -/

/-- Constant `const int MAX_ARGUMENTS = 512;` (smallsh.c) -/
def MAX_ARGUMENTS : Nat := 512

/-- Constant `const int MAX_COMMAND_LENGTH = 2048;` (smallsh.c) -/
def MAX_COMMAND_LENGTH : Nat := 2048

/-- Constant `const int MAX_FORKS = 100;` (smallsh.c) -/
def MAX_FORKS : Int := 100

/-- Constant `const int SIGNAL_KILLED = 500;` (smallsh.c) -/
def SIGNAL_KILLED : Int := 500

/-- Constant `const int KILLED_BY_SIGNAL = 500;` (smallshlib.c) -/
def KILLED_BY_SIGNAL : Int := 500

/-- Constant `const int MAX_PATH_LENGTH = 128;` (smallshlib.c) -/
def MAX_PATH_LENGTH : Nat := 128

/-- Constant `const char *COMMENT = "#";` (smallsh.c), compared on one character. -/
def COMMENT : Char := '#'

/-- C strings (without the terminating NUL). -/
abbrev Str := List Char

/-! ## libc string helpers -/

/-- The C-locale `isspace`: space, `\t`, `\n`, `\v`, `\f`, `\r`. -/
def isspace (c : Char) : Bool :=
  c == ' ' || c == '\t' || c == '\n' || c == '\x0b' || c == '\x0c' || c == '\r'

/-- Source `!strncmp(s, "c", 1)`: the first character of `s` is `c` (an empty `s`
compares its NUL against `c` and differs). -/
def strncmp1 (s : Str) (c : Char) : Bool :=
  match s with
  | [] => false
  | x :: _ => x == c

/-- The successive non-NULL results of `strtok(s, d)`, `strtok(NULL, d)`, ...
for a one-character delimiter set `d`: the maximal runs of non-delimiter
characters, in order.  A character that is followed by a delimiter (or by the
end of the string) closes its token; otherwise it is prepended to the token
that starts right after it. -/
def strtokAll (d : Char) : Str → List Str
  | [] => []
  | c :: cs =>
    if c == d then strtokAll d cs
    else if strncmp1 cs d then [c] :: strtokAll d cs
    else
      match strtokAll d cs with
      | [] => [[c]]
      | t :: ts => (c :: t) :: ts

/-- One call `strtok(s, d)` on a fresh string: `none` is the NULL result. -/
def strtok (s : Str) (d : Char) : Option Str :=
  (strtokAll d s).head?

/-! ## Blank / comment classification (smallsh.c lines 282-321) -/

/-- The value of `isBlankOrComment` after lines 282-321 for the line left in
`commandInputBuffer` by `fgets`.  `none`: `strtok` returned NULL and
`strcpy(command, NULL)` was executed. -/
def isBlankOrComment (line : Str) : Option Bool :=
  if line.length > 1 then
    let flag := line.all isspace
    match strtok line ' ' with
    | none => none
    | some command => some (if strncmp1 command COMMENT then true else flag)
  else
    some true

/-! ## The argument tokenizer (smallsh.c lines 331-523) -/

/-- The variables written by the tokenizer loop.  `userArgs` holds the entries
`userArgs[0 .. numArgs-1]` (so `numArgs = i = userArgs.length` inside the
loop); the targets are `none` while the pointers have not been assigned in
this iteration. -/
structure Tok where
  userArgs : List Str
  redirectsInput : Bool
  redirectsOutput : Bool
  getInput : Bool
  getOutput : Bool
  inputTarget : Option Str
  outputTarget : Option Str
deriving DecidableEq, Repr

/-- The flags as reset at the top of the main loop (lines 235-250). -/
def Tok.init : Tok :=
  { userArgs := [], redirectsInput := false, redirectsOutput := false,
    getInput := false, getOutput := false, inputTarget := none, outputTarget := none }

/-- The capture of a pending input target (lines 392-399); returns the new
variables and the new `isArg`. -/
def captureInput (t : Tok) (lastToken : Str) (isArg : Bool) : Tok × Bool :=
  if t.getInput then ({ t with inputTarget := some lastToken, getInput := false }, false)
  else (t, isArg)

/-- The capture of a pending output target (lines 401-407). -/
def captureOutput (t : Tok) (lastToken : Str) (isArg : Bool) : Tok × Bool :=
  if t.getOutput then ({ t with outputTarget := some lastToken, getOutput := false }, false)
  else (t, isArg)

/-- The operator match (lines 421-453). -/
def matchOperator (t : Tok) (lastToken : Str) (isArg : Bool) : Tok × Bool :=
  if strncmp1 lastToken '<' then
    ((if !t.getInput then { t with redirectsInput := true, getInput := true } else t), false)
  else if strncmp1 lastToken '>' then
    ((if !t.getOutput then { t with redirectsOutput := true, getOutput := true } else t), false)
  else (t, isArg)

/-- Source `spaceCheck = lastToken[0]; isspace(spaceCheck)` (lines 379-380); the
first byte of an empty string is its NUL, which is no space. -/
def leadingSpace (lastToken : Str) : Bool :=
  match lastToken with
  | [] => false
  | spaceCheck :: _ => isspace spaceCheck

/-- One pass of the body of `while(lastToken)` (lines 360-476) for the token
`lastToken`.  `none`: `userArgs[i]` is written with `i ≥ MAX_ARGUMENTS`. -/
def tokStep (t : Tok) (lastToken : Str) : Option Tok :=
  let isArg := !leadingSpace lastToken
  let (t1, isArg1) := captureInput t lastToken isArg
  let (t2, isArg2) := captureOutput t1 lastToken isArg1
  let (t3, isArg3) := matchOperator t2 lastToken isArg2
  if isArg3 then
    if t3.userArgs.length < MAX_ARGUMENTS then
      some { t3 with userArgs := t3.userArgs ++ [lastToken] }
    else none
  else some t3

/-- The whole `while(lastToken)` loop over the remaining tokens. -/
def tokLoop : Tok → List Str → Option Tok
  | t, [] => some t
  | t, lastToken :: rest =>
    match tokStep t lastToken with
    | none => none
    | some t1 => tokLoop t1 rest

/-- Source `strcpy(target, strtok(target, "\n"))` under `if(redirects...)` (lines
488-497).  `none`: the pointer was not assigned in this iteration (it is
indeterminate, or left over from an earlier line, and is not followed here),
or `strtok` returned NULL. -/
def stripTarget (redirects : Bool) (target : Option Str) : Option (Option Str) :=
  if redirects then
    match target with
    | none => none
    | some s =>
      match strtok s '\n' with
      | none => none
      | some s1 => some (some s1)
  else some target

/-- The parsed command line: the variables of `main` that the dispatch below
line 523 reads.  `userArgs` is `userArgs[0 .. numArgs-1]`. -/
structure Parsed where
  command : Str
  userArgs : List Str
  numArgs : Nat
  redirectsInput : Bool
  redirectsOutput : Bool
  inputTarget : Option Str
  outputTarget : Option Str
  backgroundProcessFlag : Bool
deriving DecidableEq, Repr

/-- Lines 506-523: strip the newline of the last argument and detect the
background marker.  `none`: `strtok` returned NULL, or `userArgs[numArgs]` is
written with `numArgs ≥ MAX_ARGUMENTS`. -/
def backgroundCheck (userArgs : List Str) : Option (List Str × Bool) :=
  match userArgs.getLast? with
  | none => some (userArgs, false)
  | some lastArg =>
    match strtok lastArg '\n' with
    | none => none
    | some stripped =>
      if strncmp1 stripped '&' then
        if userArgs.length < MAX_ARGUMENTS then some (userArgs.dropLast, true) else none
      else some (userArgs.dropLast ++ [stripped], false)

/-- Lines 338-523 for a line that is neither blank nor a comment: `command`
is the first `strtok` token (copied at line 306), the loop runs over the
remaining tokens. -/
def tokenize (line : Str) : Option Parsed :=
  match strtokAll ' ' line with
  | [] => none
  | command :: tokens =>
    match tokLoop Tok.init tokens with
    | none => none
    | some t =>
      match stripTarget t.redirectsInput t.inputTarget,
            stripTarget t.redirectsOutput t.outputTarget,
            backgroundCheck t.userArgs with
      | some inT, some outT, some (args, bg) =>
        some { command := command, userArgs := args, numArgs := args.length,
               redirectsInput := t.redirectsInput, redirectsOutput := t.redirectsOutput,
               inputTarget := inT, outputTarget := outT, backgroundProcessFlag := bg }
      | _, _, _ => none

/-! ## Wait-status words

`childStatus` is the word filled in by `waitpid`.  The `W...` macros come from
the system's `<sys/wait.h>`; they are given here with their Linux/glibc
meaning (`s & 0x7f` is `s % 128`, `(s & 0xff00) >> 8` is `s / 256 % 256`). -/

/-- Macro `WTERMSIG(s)`: `s & 0x7f`. -/
def WTERMSIG (s : Int) : Int := s % 128

/-- Macro `WEXITSTATUS(s)`: `(s & 0xff00) >> 8`. -/
def WEXITSTATUS (s : Int) : Int := s / 256 % 256

/-- Macro `WIFEXITED(s)`: `WTERMSIG(s) == 0`. -/
def WIFEXITED (s : Int) : Bool := WTERMSIG s == 0

/-- Macro `WIFSIGNALED(s)`: `((signed char) ((s & 0x7f) + 1) >> 1) > 0`, that is
`1 ≤ (s & 0x7f) ≤ 126`. -/
def WIFSIGNALED (s : Int) : Bool := decide (1 ≤ WTERMSIG s) && decide (WTERMSIG s ≤ 126)

/-- The status word the kernel reports for a child that called `exit(code)`. -/
def exitedStatus (code : Int) : Int := code % 256 * 256

/-- The status word the kernel reports for a child killed by signal `sig`
(`core`: a core dump was produced). -/
def signaledStatus (sig : Int) (core : Bool) : Int := sig + (if core then 128 else 0)

/-- What a `waitpid` call did: returned 0 (`unchanged`, only with `WNOHANG`),
returned the child's pid after storing its status word (`reaped`), or returned
-1 leaving `childStatus` untouched (`error`). -/
inductive WaitRes where
  | unchanged
  | reaped (childStatus : Int)
  | error
deriving DecidableEq, Repr

/-! ## Observable events -/

/-- The outputs and system calls of the shell that the claims talk about.  The
integers of a print event are the arguments handed to `printf`. -/
inductive Event where
  /-- Output `printf("Too many forked processes, exiting shell.\n")` -/
  | tooManyForks
  /-- Output `printf(":")` -/
  | prompt
  /-- Output `printf("Background PID %ld is done: exit value %d\n", pid, value)` -/
  | bgDoneExit (pid value : Int)
  /-- Output `printf("Background PID %ld is done: terminated by signal %d\n", pid, sig)` -/
  | bgDoneSignal (pid sig : Int)
  /-- Output `printf("%d\n", status)` in `smallsh_status` -/
  | statusValue (status : Int)
  /-- Output `printf("Terminated by signal %d\n", sig)` -/
  | terminatedBySignal (sig : Int)
  /-- Output `printf("Usage: cd [absolute or relative path\n")` -/
  | usage
  /-- Call `perror(what)` -/
  | perror (what : Str)
  /-- Call `chdir(path)` with a path string -/
  | chdir (path : Str)
  /-- Call `chdir(getenv("HOME"))` -/
  | chdirHome
  /-- Call `chdir(previousDirectory)` -/
  | chdirPrevious
  /-- Call `open(inputTarget, O_RDONLY)` -/
  | openInput (path : Str)
  /-- Call `open(outputTarget, O_WRONLY | O_TRUNC | O_CREAT, S_IRWXU)` -/
  | openOutput (path : Str)
  /-- The call `fork()` returned `pid`; `processesForked` holds `counter` after line 669 -/
  | fork (pid counter : Int)
  /-- Call `waitpid(pid, &childStatus, 0)` -/
  | waitForeground (pid : Int)
  /-- Output `printf("Background PID is %ld\n", pid)` -/
  | backgroundPid (pid : Int)
  /-- Output `printf("Killing %ld\n", pid)` -/
  | killing (pid : Int)
  /-- Call `kill(pid, SIGTERM)` -/
  | kill (pid : Int)
  /-- Output `printf("%ld terminated by signal %d\n", pid, SIGTERM)` -/
  | killed (pid : Int)
deriving DecidableEq, Repr

/-! ## Built-ins (smallshlib.c) -/

/-- Source `smallsh_status`: what it prints; it always returns 0. -/
def smallsh_status (status signalNum : Int) : List Event × Int :=
  if status == KILLED_BY_SIGNAL then ([Event.terminatedBySignal signalNum], 0)
  else ([Event.statusValue status], 0)

/-- What the never-initialised local `char *previousDirectory` of `smallsh_cd`
refers to: either nothing writable (NULL or a bad address, so that `getcwd`
stores nothing and `chdir(previousDirectory)` fails), or storage of at least
`MAX_PATH_LENGTH` bytes with some contents. -/
inductive PrevDir where
  | unwritable
  | storage (contents : Str)
deriving DecidableEq, Repr

/-- Source `getcwd(previousDirectory, MAX_PATH_LENGTH)`: the path is stored when the
pointer is writable and the path with its NUL fits into `MAX_PATH_LENGTH`
bytes; otherwise the storage keeps what it held. -/
def getcwd (previousDirectory : PrevDir) (cwd : Str) : PrevDir :=
  match previousDirectory with
  | PrevDir.unwritable => PrevDir.unwritable
  | PrevDir.storage old =>
    if cwd.length < MAX_PATH_LENGTH then PrevDir.storage cwd else PrevDir.storage old

/-- The file-system answers `smallsh_cd` depends on.  A working directory is
identified with its absolute path name; `chdir cwd path` is the working
directory after a successful `chdir(path)` issued in `cwd`, `none` a failure. -/
structure CdEnv where
  chdir : Str → Str → Option Str
  home : Option Str
  previousDirectory : PrevDir

/-- The result of `smallsh_cd`: the returned status, the working directory
after the call and the events of the call. -/
structure CdResult where
  status : Int
  cwd : Str
  trace : List Event
deriving DecidableEq, Repr

/-- Call `chdir(previousDirectory)`: the working directory afterwards. -/
def chdirPrevious (e : CdEnv) (previousDirectory : PrevDir) (cwd : Str) : Str :=
  match previousDirectory with
  | PrevDir.unwritable => cwd
  | PrevDir.storage contents => (e.chdir cwd contents).getD cwd

/-- The `while(pathStep != NULL)` loop of `smallsh_cd` (lines 90-112 and
128-142) over the remaining `strtok` segments. -/
def cdWalk (e : CdEnv) (previousDirectory : PrevDir) : List Str → Str → List Event → CdResult
  | [], cwd, trace => { status := 0, cwd := cwd, trace := trace }
  | pathStep :: rest, cwd, trace =>
    match e.chdir cwd pathStep with
    | some cwd1 => cdWalk e previousDirectory rest cwd1 (trace ++ [Event.chdir pathStep])
    | none =>
      { status := 1, cwd := chdirPrevious e previousDirectory cwd,
        trace := trace ++ [Event.chdir pathStep, Event.perror pathStep, Event.chdirPrevious] }

/-- The directory reached from `cwd` by changing into the segments one after
the other; `none` when one of them fails. -/
def resolveSegments (e : CdEnv) : Str → List Str → Option Str
  | cwd, [] => some cwd
  | cwd, seg :: rest =>
    match e.chdir cwd seg with
    | none => none
    | some cwd1 => resolveSegments e cwd1 rest

/-- Source `smallsh_cd(numArgs, userArgs)` run in working directory `cwd`.  `none`:
`userArgs[0]` is read but the array has no entry. -/
def smallsh_cd (e : CdEnv) (cwd : Str) (numArgs : Int) (userArgs : List Str) : Option CdResult :=
  let previousDirectory := getcwd e.previousDirectory cwd
  if numArgs == 0 then
    match e.home.bind (e.chdir cwd) with
    | some cwd1 => some { status := 0, cwd := cwd1, trace := [Event.chdirHome] }
    | none => some { status := -1, cwd := cwd, trace := [Event.chdirHome] }
  else if numArgs == 1 then
    match userArgs with
    | [] => none
    | arg0 :: _ =>
      let r :=
        if strncmp1 arg0 '/' then
          let cwd1 := (e.chdir cwd ['/']).getD cwd
          cdWalk e previousDirectory (strtokAll '/' arg0.tail) cwd1 [Event.chdir ['/']]
        else
          let previousDirectory1 := getcwd previousDirectory cwd
          cdWalk e previousDirectory1 (strtokAll '/' arg0) cwd []
      if numArgs > 1 then some { r with status := 1, trace := r.trace ++ [Event.usage] }
      else some r
  else some { status := 0, cwd := cwd, trace := [] }

/-! ## The shell state and one iteration of the main loop -/

/-- The variables of `main` that live across iterations, and the working
directory of the process. -/
structure Shell where
  status : Int
  signalNum : Int
  backgroundProcesses : Nat → Int
  numBGProcesses : Int
  processesForked : Int
  childStatus : Int
  cwd : Str

/-- The state when the loop is first entered: the counters and the status are
zero; the array `backgroundProcesses` and `childStatus` are uninitialised and
hold whatever was there. -/
def Shell.init (garbage : Nat → Int) (childStatus : Int) (cwd : Str) : Shell :=
  { status := 0, signalNum := 0, backgroundProcesses := garbage, numBGProcesses := 0,
    processesForked := 0, childStatus := childStatus, cwd := cwd }

/-- The identifiers the shell tracks: `backgroundProcesses[0 .. numBGProcesses-1]`. -/
def Shell.tracked (s : Shell) : List Int :=
  (List.range s.numBGProcesses.toNat).map s.backgroundProcesses

/-- What the operating system answers during one iteration. -/
structure Env where
  /-- The answer to `waitpid(backgroundProcesses[i], &childStatus, WNOHANG)` at loop index `i` -/
  poll : Nat → Int → WaitRes
  /-- The line `fgets` leaves in `commandInputBuffer` (empty at end of input) -/
  line : Str
  /-- The descriptor returned by `open(inputTarget, O_RDONLY)` -/
  openInput : Str → Int
  /-- The descriptor returned by `open(outputTarget, ...)` -/
  openOutput : Str → Int
  /-- The value `fork()` returns -/
  fork : Int
  /-- The answer to `waitpid(forkedPID, &childStatus, 0)` -/
  waitForeground : Int → WaitRes
  /-- The file system seen by `cd` -/
  cd : CdEnv

/-- How an iteration ends: back at the top of the loop, with the process
terminated by `exit(code)`, as the forked child (which goes on to `execvp` or
`exit(1)` and never returns to the loop), or in undefined behaviour. -/
inductive Outcome where
  | continue (s : Shell) (trace : List Event)
  | exit (code : Int) (s : Shell) (trace : List Event)
  | child (trace : List Event)
  | undefined

/-- Source `backgroundProcesses[i] = v` for an index inside the array. -/
def setBackground (a : Nat → Int) (i : Nat) (v : Int) : Nat → Int :=
  fun j => if j = i then v else a j

/-- The removal at lines 207-209 and 219-221:
`backgroundProcesses[i] = backgroundProcesses[numBGProcesses]; numBGProcesses--;
processesForked--;`.  `none`: index `numBGProcesses` is outside the array. -/
def removeBackground (s : Shell) (i : Nat) : Option Shell :=
  if 0 ≤ s.numBGProcesses ∧ s.numBGProcesses < MAX_FORKS then
    some { s with
      backgroundProcesses :=
        setBackground s.backgroundProcesses i (s.backgroundProcesses s.numBGProcesses.toNat),
      numBGProcesses := s.numBGProcesses - 1,
      processesForked := s.processesForked - 1 }
  else none

/-- The body of the reaper loop (lines 193-223) at index `i`.  `none`:
`backgroundProcesses[i]`, or the slot read by the removal, lies outside the
array. -/
def reapBody (poll : Nat → Int → WaitRes) (i : Nat) (s : Shell) : Option (Shell × List Event) :=
  if (i : Int) < MAX_FORKS then
    let pid := s.backgroundProcesses i
    let r := poll i pid
    let s1 : Shell :=
      match r with
      | WaitRes.reaped st => { s with childStatus := st }
      | _ => s
    if r = WaitRes.unchanged then some (s1, [])
    else if WIFEXITED s1.childStatus then
      match removeBackground { s1 with status := WEXITSTATUS s1.childStatus } i with
      | none => none
      | some s2 => some (s2, [Event.bgDoneExit pid s1.childStatus])
    else if WIFSIGNALED s1.childStatus then
      match removeBackground
          { s1 with status := SIGNAL_KILLED, signalNum := WTERMSIG s1.childStatus } i with
      | none => none
      | some s2 => some (s2, [Event.bgDoneSignal pid (WTERMSIG s1.childStatus)])
    else some (s1, [])
  else none

/-- The loop `for (i = 0; i < numBGProcesses; i++)` of lines 191-224, from
index `i`, with at most `fuel` passes. -/
def reapLoop (poll : Nat → Int → WaitRes) : Nat → Nat → Shell → List Event →
    Option (Shell × List Event)
  | 0, _, s, trace => some (s, trace)
  | fuel + 1, i, s, trace =>
    if (i : Int) < s.numBGProcesses then
      match reapBody poll i s with
      | none => none
      | some (s1, ev) => reapLoop poll fuel (i + 1) s1 (trace ++ ev)
    else some (s, trace)

/-- The background reaper: the loop started at index 0.  `numBGProcesses`
passes are enough, because the bound never grows while the index does. -/
def reap (poll : Nat → Int → WaitRes) (s : Shell) : Option (Shell × List Event) :=
  reapLoop poll s.numBGProcesses.toNat 0 s []

/-- Source `smallsh_exit(numBGProcesses, backgroundProcesses)`: the events before
`exit(0)`.  -/
def smallsh_exit (numProcesses : Int) (background : Nat → Int) : List Event :=
  (List.range numProcesses.toNat).flatMap fun i =>
    [Event.killing (background i), Event.kill (background i), Event.killed (background i)]

/-- The parent's side of lines 668-929, after `open` succeeded. -/
def forkAndWait (env : Env) (s : Shell) (trace : List Event) (p : Parsed) : Outcome :=
  let forkedPID := env.fork
  let s1 : Shell := { s with processesForked := s.processesForked + 1 }
  let trace1 := trace ++ [Event.fork forkedPID s1.processesForked]
  let s2 : Shell := if forkedPID == -1 then { s1 with status := 1 } else s1
  let trace2 := if forkedPID == -1 then trace1 ++ [Event.perror "fork".toList] else trace1
  if forkedPID == 0 then Outcome.child trace2
  else if p.backgroundProcessFlag then
    if 0 ≤ s2.numBGProcesses ∧ s2.numBGProcesses < MAX_FORKS then
      Outcome.continue
        { s2 with
          backgroundProcesses :=
            setBackground s2.backgroundProcesses s2.numBGProcesses.toNat forkedPID,
          numBGProcesses := s2.numBGProcesses + 1 }
        (trace2 ++ [Event.backgroundPid forkedPID])
    else Outcome.undefined
  else
    let r := env.waitForeground forkedPID
    let s3 : Shell :=
      match r with
      | WaitRes.reaped st => { s2 with childStatus := st }
      | _ => s2
    let trace3 := trace2 ++ [Event.waitForeground forkedPID] ++
      (if r = WaitRes.error then [Event.perror "wait failed".toList] else [])
    if WIFSIGNALED s3.childStatus then
      Outcome.continue
        { s3 with signalNum := WTERMSIG s3.childStatus, status := SIGNAL_KILLED,
                  processesForked := s3.processesForked - 1 }
        (trace3 ++ [Event.terminatedBySignal (WTERMSIG s3.childStatus)])
    else
      Outcome.continue
        { s3 with status := WEXITSTATUS s3.childStatus,
                  processesForked := s3.processesForked - 1 }
        trace3

/-- Lines 631-633: `inputFile` (0 when no input redirection was requested)
and the events.  `none`: `inputTarget` is read but was never assigned. -/
def openInputFile (env : Env) (p : Parsed) : Option (Int × List Event) :=
  if p.redirectsInput then
    p.inputTarget.map fun f => (env.openInput f, [Event.openInput f])
  else some (0, [])

/-- Lines 645-647: `outputFile` and the events. -/
def openOutputFile (env : Env) (p : Parsed) : Option (Int × List Event) :=
  if p.redirectsOutput then
    p.outputTarget.map fun f => (env.openOutput f, [Event.openOutput f])
  else some (0, [])

/-- The external-command block (lines 601-930).  `undefined`:
`execvLine[numArgs+1]` lies outside `execvLine[MAX_ARGUMENTS + 1]`, or a
redirection target is read that was never assigned. -/
def external (env : Env) (s : Shell) (trace : List Event) (p : Parsed) : Outcome :=
  if p.numArgs + 1 ≤ MAX_ARGUMENTS then
    match openInputFile env p with
    | none => Outcome.undefined
    | some (inputFile, ev1) =>
      if p.redirectsInput && inputFile == -1 then
        Outcome.continue { s with status := 1 } (trace ++ ev1 ++ [Event.perror "open".toList])
      else
        match openOutputFile env p with
        | none => Outcome.undefined
        | some (outputFile, ev2) =>
          if p.redirectsOutput && outputFile == -1 then
            Outcome.continue { s with status := 1 }
              (trace ++ ev1 ++ ev2 ++ [Event.perror "open".toList])
          else if inputFile != -1 && outputFile != -1 then
            forkAndWait env s (trace ++ ev1 ++ ev2) p
          else Outcome.continue s (trace ++ ev1 ++ ev2)
  else Outcome.undefined

/-- The dispatch of lines 539-930 on the parsed line.  `undefined`:
`strtok(command, "\n")` is NULL and handed to `strcmp`, or `smallsh_exit` is
given more entries than the array `backgroundProcesses` has. -/
def dispatch (env : Env) (s : Shell) (trace : List Event) (p : Parsed) : Outcome :=
  match strtok p.command '\n' with
  | none => Outcome.undefined
  | some name =>
    if name = "exit".toList then
      if s.numBGProcesses ≤ MAX_FORKS then
        Outcome.exit 0 s (trace ++ smallsh_exit s.numBGProcesses s.backgroundProcesses)
      else Outcome.undefined
    else if name = "status".toList then
      Outcome.continue { s with status := 0 } (trace ++ (smallsh_status s.status s.signalNum).1)
    else if name = "cd".toList then
      match smallsh_cd env.cd s.cwd p.numArgs p.userArgs with
      | none => Outcome.undefined
      | some r => Outcome.continue { s with status := r.status, cwd := r.cwd } (trace ++ r.trace)
    else external env s trace p

/-- Lines 264-931: read the line, classify it, and run it. -/
def readAndRun (env : Env) (s : Shell) (trace : List Event) : Outcome :=
  match isBlankOrComment env.line with
  | none => Outcome.undefined
  | some true => Outcome.continue s trace
  | some false =>
    match tokenize env.line with
    | none => Outcome.undefined
    | some p => dispatch env s trace p

/-- One iteration of `while(!commandIsExit)`: the fork-bomb guard, the
reaper, the prompt, then the command line. -/
def step (env : Env) (s : Shell) : Outcome :=
  if s.processesForked ≥ MAX_FORKS then Outcome.exit 1 s [Event.tooManyForks]
  else
    match reap env.poll s with
    | none => Outcome.undefined
    | some (s1, trace) => readAndRun env s1 (trace ++ [Event.prompt])

/-- The states at the top of the loop that some run of the shell reaches. -/
inductive Reachable : Shell → Prop where
  | init (garbage : Nat → Int) (childStatus : Int) (cwd : Str) :
      Reachable (Shell.init garbage childStatus cwd)
  | step (env : Env) (s s1 : Shell) (trace : List Event) :
      Reachable s → step env s = Outcome.continue s1 trace → Reachable s1

/-- The events of an outcome (none for undefined behaviour). -/
def Outcome.trace : Outcome → List Event
  | Outcome.continue _ trace => trace
  | Outcome.exit _ _ trace => trace
  | Outcome.child trace => trace
  | Outcome.undefined => []

/-- The shell state of an outcome that still has one. -/
def Outcome.shell : Outcome → Option Shell
  | Outcome.continue s _ => some s
  | Outcome.exit _ s _ => some s
  | Outcome.child _ => none
  | Outcome.undefined => none

/-! ## Observations on traces -/

/-- A fork event respects the bound `b`: the counter it records is at most
`b`.  Every other event does so trivially. -/
def Event.forkWithin (b : Int) : Event → Prop
  | Event.fork _ counter => counter ≤ b
  | _ => True

/-- The events of `trace1` are those of `trace` plus events that respect the
fork bound `b`. -/
def AddsWithin (b : Int) (trace trace1 : List Event) : Prop :=
  ∀ e ∈ trace1, e ∈ trace ∨ e.forkWithin b

/-- The text an event writes to standard output, from the format strings of
the source (`%d` and `%ld` print a decimal number; SIGTERM is 15).  `perror`
writes to standard error and the system calls write nothing. -/
def Event.stdout : Event → String
  | Event.tooManyForks => "Too many forked processes, exiting shell.\n"
  | Event.prompt => ":"
  | Event.bgDoneExit pid value =>
    "Background PID " ++ toString pid ++ " is done: exit value " ++ toString value ++ "\n"
  | Event.bgDoneSignal pid sig =>
    "Background PID " ++ toString pid ++ " is done: terminated by signal " ++ toString sig ++ "\n"
  | Event.statusValue status => toString status ++ "\n"
  | Event.terminatedBySignal sig => "Terminated by signal " ++ toString sig ++ "\n"
  | Event.usage => "Usage: cd [absolute or relative path\n"
  | Event.backgroundPid pid => "Background PID is " ++ toString pid ++ "\n"
  | Event.killing pid => "Killing " ++ toString pid ++ "\n"
  | Event.killed pid => toString pid ++ " terminated by signal 15\n"
  | _ => ""

/-! ## Vocabulary of the specification -/

/-- Remove one trailing newline, if there is one. -/
def chomp (t : Str) : Str :=
  if t.getLast? = some '\n' then t.dropLast else t

/-- Apply `chomp` to the last entry of a list of strings. -/
def chompLast (l : List Str) : List Str :=
  match l.getLast? with
  | none => l
  | some t => l.dropLast ++ [chomp t]

/-- The first whitespace-delimited token of a line, in the words of the
specification: skip leading whitespace, then take up to the next whitespace. -/
def firstWhitespaceToken (line : Str) : Str :=
  (line.dropWhile isspace).takeWhile (fun c => !isspace c)

/-- How a child process ended. -/
inductive ChildEnd where
  | exited (code : Int)
  | signaled (sig : Int) (core : Bool)
deriving DecidableEq, Repr

/-- The status word `waitpid` stores for a child that ended this way. -/
def ChildEnd.word : ChildEnd → Int
  | ChildEnd.exited code => exitedStatus code
  | ChildEnd.signaled sig core => signaledStatus sig core

/-- Exit codes are 0..255; the signal field of a status word holds 1..126. -/
def ChildEnd.wellFormed : ChildEnd → Prop
  | ChildEnd.exited code => 0 ≤ code ∧ code ≤ 255
  | ChildEnd.signaled sig _ => 1 ≤ sig ∧ sig ≤ 126

/-- What the specification expects `status` to print after a child that ended
this way: the exit code in decimal, or `Terminated by signal N`. -/
def ChildEnd.report : ChildEnd → Event
  | ChildEnd.exited code => Event.statusValue code
  | ChildEnd.signaled sig _ => Event.terminatedBySignal sig

/-- The child was killed by a signal. -/
def ChildEnd.isSignaled : ChildEnd → Bool
  | ChildEnd.exited _ => false
  | ChildEnd.signaled _ _ => true

/-! ## Concrete environments used in the examples -/

/-- An environment in which no background process changes state, `open`
succeeds, `fork` returns pid 7, the foreground child exits with code 0 and
every `chdir` fails; the line read is `line`. -/
def demoEnv (line : Str) : Env :=
  { poll := fun _ _ => WaitRes.unchanged,
    line := line,
    openInput := fun _ => 3,
    openOutput := fun _ => 4,
    fork := 7,
    waitForeground := fun _ => WaitRes.reaped 0,
    cd := { chdir := fun _ _ => none, home := none, previousDirectory := PrevDir.unwritable } }

/-- A freshly started shell in the root directory, with zeroed memory. -/
def demoShell : Shell := Shell.init (fun _ => 0) 0 ['/']

/-- A small file system: the directories `/`, `/a` and `/home` exist, so
`chdir` succeeds for the root, for `a` and `home` issued in the root, and for
the absolute names `/a` and `/home`; everything else fails. -/
def demoChdir (cwd path : Str) : Option Str :=
  if path = "/".toList then some "/".toList
  else if path = "/a".toList ∨ path = "/home".toList then some path
  else if cwd = "/".toList ∧ (path = "a".toList ∨ path = "home".toList) then some ('/' :: path)
  else none

/-- The small file system together with a state of `previousDirectory`. -/
def demoCd (previousDirectory : PrevDir) : CdEnv :=
  { chdir := demoChdir, home := some "/home".toList, previousDirectory := previousDirectory }

/-- The name of a directory whose path, with its NUL, needs 129 bytes. -/
def demoLongDir : Str := '/' :: List.replicate 127 'x'

/-- A shell tracking the two background processes 11 and 22; the array slot
behind them holds 0. -/
def demoTwoBackground : Shell :=
  { demoShell with
    backgroundProcesses := fun i => if i = 0 then 11 else if i = 1 then 22 else 0,
    numBGProcesses := 2, processesForked := 2 }

/-- Polls in which process 11 has exited with code 0 and nothing else has
changed state. -/
def demoPoll (_ : Nat) (pid : Int) : WaitRes :=
  if pid = 11 then WaitRes.reaped (exitedStatus 0) else WaitRes.unchanged

/-- The shell after `n` background launches that each returned pid 7 and of
which none has been reaped. -/
def demoLaunched (n : Nat) : Shell :=
  { demoShell with
    backgroundProcesses := fun i => if i < n then 7 else 0,
    numBGProcesses := n, processesForked := n }

/-- The environment `demoEnv line` with a foreground child that ends as `c`. -/
def demoEnvChild (line : Str) (c : ChildEnd) : Env :=
  { demoEnv line with waitForeground := fun _ => WaitRes.reaped c.word }

/-- The environment `demoEnv line` in which `fork()` fails and, the shell
having no child, `waitpid(-1, ...)` fails as well. -/
def demoEnvForkFails (line : Str) : Env :=
  { demoEnv line with fork := -1, waitForeground := fun _ => WaitRes.error }

/-- Polls in which process 11 has exited with code `code` and nothing else has
changed state. -/
def demoPollExit (code : Int) (_ : Nat) (pid : Int) : WaitRes :=
  if pid = 11 then WaitRes.reaped (exitedStatus code) else WaitRes.unchanged

/-! # Lemmas -/

theorem strtokAll_ne_nil (d : Char) (s : Str) : ∀ t ∈ strtokAll d s, t ≠ [] := by
  induction s with
  | nil => simp [strtokAll]
  | cons c cs ih =>
    intro t ht
    rw [strtokAll] at ht
    split at ht
    · exact ih t ht
    · split at ht
      · simp at ht
        rcases ht with h | h
        · simp [h]
        · exact ih t h
      · split at ht
        · simp at ht; simp [ht]
        · rename_i t1 ts heq
          simp at ht
          rcases ht with h | h
          · simp [h]
          · exact ih t (by rw [heq]; simp [h])

theorem strtokAll_subset (d : Char) (s : Str) : ∀ t ∈ strtokAll d s, ∀ c ∈ t, c ∈ s := by
  induction s with
  | nil => simp [strtokAll]
  | cons c cs ih =>
    intro t ht x hx
    rw [strtokAll] at ht
    split at ht
    · exact List.mem_cons_of_mem _ (ih t ht x hx)
    · split at ht
      · simp at ht
        rcases ht with h | h
        · subst h; simp at hx; simp [hx]
        · exact List.mem_cons_of_mem _ (ih t h x hx)
      · split at ht
        · simp at ht; subst ht; simp at hx; simp [hx]
        · rename_i t1 ts heq
          simp at ht
          rcases ht with h | h
          · subst h
            simp at hx
            rcases hx with h1 | h1
            · simp [h1]
            · exact List.mem_cons_of_mem _ (ih t1 (by rw [heq]; simp) x h1)
          · exact List.mem_cons_of_mem _ (ih t (by rw [heq]; simp [h]) x hx)

theorem strtokAll_eq_nil (d : Char) (s : Str) (h : strtokAll d s = []) : ∀ c ∈ s, c = d := by
  induction s with
  | nil => simp
  | cons c cs ih =>
    rw [strtokAll] at h
    split at h
    · rename_i hc
      intro x hx
      simp at hx
      rcases hx with h1 | h1
      · subst h1; simpa using hc
      · exact ih h x h1
    · split at h
      · simp at h
      · split at h <;> simp at h

theorem strtok_head (d c : Char) (cs : Str) (hc : c ≠ d) :
    strtok (c :: cs) d = some (c :: cs.takeWhile (fun x => x != d)) := by
  unfold strtok
  induction cs generalizing c with
  | nil => simp [strtokAll, hc, strncmp1]
  | cons c2 cs ih =>
    rw [strtokAll]
    simp only [beq_iff_eq, hc, if_false]
    by_cases h2 : c2 = d
    · simp [h2, strncmp1]
    · have := ih c2 h2
      simp only [strncmp1, beq_iff_eq, h2, if_false]
      split
      · rename_i heq; rw [heq] at this; simp at this
      · rename_i t ts heq
        rw [heq] at this
        simp at this
        simp [this, h2]

theorem takeWhile_eq_chomp (t : Str) (h : '\n' ∉ t.dropLast) :
    t.takeWhile (fun x => x != '\n') = chomp t := by
  unfold chomp
  rcases List.eq_nil_or_concat t with h0 | ⟨l, x, rfl⟩
  · subst h0; simp
  · simp only [List.concat_eq_append] at *
    simp only [List.dropLast_concat] at h
    have hl : l.takeWhile (fun x => x != '\n') = l := by
      rw [List.takeWhile_eq_self_iff]
      intro c hc
      simp
      rintro rfl
      exact h hc
    rw [List.takeWhile_append_of_pos]
    swap
    · intro c hc
      simp
      rintro rfl
      exact h hc
    by_cases hx : x = '\n'
    · subst hx; simp
    · simp [hx]

/-! ### The tokenizer loop -/

theorem tokStep_plain (t : Tok) (tok : Str) (hi : t.getInput = false) (ho : t.getOutput = false)
    (h1 : strncmp1 tok '<' = false) (h2 : strncmp1 tok '>' = false)
    (h3 : leadingSpace tok = false) (hlen : t.userArgs.length < MAX_ARGUMENTS) :
    tokStep t tok = some { t with userArgs := t.userArgs ++ [tok] } := by
  simp [tokStep, captureInput, captureOutput, matchOperator, hi, ho, h1, h2, h3, hlen]

theorem tokLoop_append (a b : List Str) (t : Tok) :
    tokLoop t (a ++ b) = (tokLoop t a).bind (fun t1 => tokLoop t1 b) := by
  induction a generalizing t with
  | nil => simp [tokLoop]
  | cons u us ih =>
    simp only [List.cons_append, tokLoop]
    cases h : tokStep t u with
    | none => simp
    | some t1 => simp [ih]

/-- After a pass of the loop body, a target is pending exactly when the token
began with the operator. -/
theorem tokStep_pending (t t1 : Tok) (tok : Str) (h : tokStep t tok = some t1) :
    t1.getInput = strncmp1 tok '<' ∧
    t1.getOutput = (!strncmp1 tok '<' && strncmp1 tok '>') := by
  simp only [tokStep, captureInput, captureOutput, matchOperator] at h
  cases hi : t.getInput <;> cases ho : t.getOutput <;> cases h1 : strncmp1 tok '<' <;>
    cases h2 : strncmp1 tok '>' <;> cases h3 : leadingSpace tok <;>
    simp [hi, ho, h1, h2, h3] at h <;>
    first
      | (subst h; simp [hi, ho])
      | (obtain ⟨_, h⟩ := h; subst h; simp [hi, ho])

theorem tokLoop_pending (pre : List Str) (t0 t : Tok) (h : tokLoop t0 pre = some t) :
    t.getInput = (match pre.getLast? with
      | none => t0.getInput
      | some u => strncmp1 u '<') ∧
    t.getOutput = (match pre.getLast? with
      | none => t0.getOutput
      | some u => (!strncmp1 u '<' && strncmp1 u '>')) := by
  rcases List.eq_nil_or_concat pre with h0 | ⟨l, u, rfl⟩
  · subst h0
    simp [tokLoop] at h
    subst h
    simp
  · simp only [List.concat_eq_append] at *
    rw [tokLoop_append] at h
    cases h1 : tokLoop t0 l with
    | none => simp [h1] at h
    | some t1 =>
      simp only [h1, Option.some_bind, tokLoop] at h
      cases h2 : tokStep t1 u with
      | none => simp [h2] at h
      | some t2 =>
        simp only [h2, Option.some.injEq] at h
        subst h
        simpa using tokStep_pending t1 t2 u h2

theorem tokStep_space (t : Tok) (tok : Str) (hi : t.getInput = false) (ho : t.getOutput = false)
    (h1 : strncmp1 tok '<' = false) (h2 : strncmp1 tok '>' = false)
    (h3 : leadingSpace tok = true) : tokStep t tok = some t := by
  simp [tokStep, captureInput, captureOutput, matchOperator, hi, ho, h1, h2, h3]

theorem tokStep_args (t t1 : Tok) (tok : Str) (h : tokStep t tok = some t1) :
    t1.userArgs = t.userArgs ∨ (t1.userArgs = t.userArgs ++ [tok] ∧ leadingSpace tok = false) := by
  simp only [tokStep, captureInput, captureOutput, matchOperator] at h
  cases hi : t.getInput <;> cases ho : t.getOutput <;> cases h1 : strncmp1 tok '<' <;>
    cases h2 : strncmp1 tok '>' <;> cases h3 : leadingSpace tok <;>
    simp [hi, ho, h1, h2, h3] at h <;>
    first
      | (subst h; simp)
      | (obtain ⟨_, h⟩ := h; subst h; simp)

/-- Every collected argument was appended by a pass that saw no leading
whitespace. -/
theorem tokLoop_args (toks : List Str) :
    ∀ t0 t : Tok, tokLoop t0 toks = some t →
      ∀ a ∈ t.userArgs, a ∈ t0.userArgs ∨ (a ∈ toks ∧ leadingSpace a = false) := by
  induction toks with
  | nil =>
    intro t0 t h a ha
    simp [tokLoop] at h
    subst h
    exact Or.inl ha
  | cons u us ih =>
    intro t0 t h a ha
    rw [tokLoop] at h
    cases h1 : tokStep t0 u with
    | none => simp [h1] at h
    | some t1 =>
      simp only [h1] at h
      rcases ih t1 t h a ha with h2 | ⟨h2, h3⟩
      · rcases tokStep_args t0 t1 u h1 with k | ⟨k1, k2⟩
        · rw [k] at h2
          exact Or.inl h2
        · rw [k1] at h2
          simp only [List.mem_append, List.mem_singleton] at h2
          rcases h2 with h2 | h2
          · exact Or.inl h2
          · subst h2
            exact Or.inr ⟨by simp, k2⟩
      · exact Or.inr ⟨by simp [h2], h3⟩

/-- Source `strtok(a, "\n")` on a non-empty argument that does not begin with
whitespace. -/
theorem strtok_newline_arg (a : Str) (hne : a ≠ []) (hsp : leadingSpace a = false) :
    strtok a '\n' = some (a.takeWhile (fun x => x != '\n')) ∧
    strncmp1 (a.takeWhile (fun x => x != '\n')) '&' = strncmp1 a '&' := by
  cases a with
  | nil => exact absurd rfl hne
  | cons c cs =>
    have hc : c ≠ '\n' := by
      rintro rfl
      simp [leadingSpace, isspace] at hsp
    refine ⟨?_, ?_⟩
    · rw [strtok_head '\n' c cs hc]
      simp [List.takeWhile_cons, hc]
    · simp [List.takeWhile_cons, hc, strncmp1]

theorem backgroundCheck_keep (args : List Str)
    (h : ∀ a, args.getLast? = some a →
      a ≠ [] ∧ leadingSpace a = false ∧ strncmp1 a '&' = false ∧ '\n' ∉ a.dropLast) :
    backgroundCheck args = some (chompLast args, false) := by
  unfold backgroundCheck chompLast
  cases hl : args.getLast? with
  | none => simp
  | some a =>
    obtain ⟨h1, h2, h3, h4⟩ := h a hl
    obtain ⟨h5, h6⟩ := strtok_newline_arg a h1 h2
    have h7 : strncmp1 (chomp a) '&' = false := by
      rw [← takeWhile_eq_chomp a h4, h6, h3]
    simp [h5, takeWhile_eq_chomp a h4, h7]

theorem backgroundCheck_remove (args : List Str) (a : Str)
    (hl : args.getLast? = some a) (hne : a ≠ []) (hsp : leadingSpace a = false)
    (hamp : strncmp1 a '&' = true) (hlen : args.length < MAX_ARGUMENTS) :
    backgroundCheck args = some (args.dropLast, true) := by
  unfold backgroundCheck
  obtain ⟨h5, h6⟩ := strtok_newline_arg a hne hsp
  simp [hl, h5, h6, hamp, hlen]

theorem chompLast_length (l : List Str) : (chompLast l).length = l.length := by
  unfold chompLast
  cases h : l.getLast? with
  | none => simp
  | some a =>
    have hne : l ≠ [] := by
      rintro rfl
      simp at h
    simp
    have := List.length_pos_of_ne_nil hne
    omega

/-! ### The reaper loop -/

theorem removeBackground_counters (s s1 : Shell) (i : Nat) (h : removeBackground s i = some s1) :
    s1.numBGProcesses = s.numBGProcesses - 1 ∧ s1.processesForked = s.processesForked - 1 := by
  unfold removeBackground at h
  split at h
  · simp at h
    subst h
    simp
  · simp at h

theorem reapBody_counters (poll : Nat → Int → WaitRes) (i : Nat) (s s1 : Shell)
    (ev : List Event) (h : reapBody poll i s = some (s1, ev)) :
    s1.numBGProcesses ≤ s.numBGProcesses ∧ s1.processesForked ≤ s.processesForked := by
  unfold reapBody at h
  split at h
  · simp only at h
    split at h
    · simp at h
      obtain ⟨h1, _⟩ := h
      subst h1
      cases poll i (s.backgroundProcesses i) <;> simp
    · split at h
      · split at h
        · simp at h
        · rename_i s2 hrem
          simp at h
          obtain ⟨h1, _⟩ := h
          subst h1
          have := removeBackground_counters _ _ _ hrem
          cases hp : poll i (s.backgroundProcesses i) <;> simp [hp] at this <;> omega
      · split at h
        · split at h
          · simp at h
          · rename_i s2 hrem
            simp at h
            obtain ⟨h1, _⟩ := h
            subst h1
            have := removeBackground_counters _ _ _ hrem
            cases hp : poll i (s.backgroundProcesses i) <;> simp [hp] at this <;> omega
        · simp at h
          obtain ⟨h1, _⟩ := h
          subst h1
          cases poll i (s.backgroundProcesses i) <;> simp
  · simp at h

theorem reapLoop_zero (poll : Nat → Int → WaitRes) (i : Nat) (s : Shell) (trace : List Event) :
    reapLoop poll 0 i s trace = some (s, trace) := rfl

theorem reapLoop_succ (poll : Nat → Int → WaitRes) (fuel i : Nat) (s : Shell)
    (trace : List Event) :
    reapLoop poll (fuel + 1) i s trace =
      if (i : Int) < s.numBGProcesses then
        match reapBody poll i s with
        | none => none
        | some (s1, ev) => reapLoop poll fuel (i + 1) s1 (trace ++ ev)
      else some (s, trace) := rfl

theorem reapLoop_counters (poll : Nat → Int → WaitRes) (fuel : Nat) :
    ∀ (i : Nat) (s : Shell) (trace : List Event) (s1 : Shell) (trace1 : List Event),
      reapLoop poll fuel i s trace = some (s1, trace1) →
      s1.numBGProcesses ≤ s.numBGProcesses ∧ s1.processesForked ≤ s.processesForked := by
  induction fuel with
  | zero =>
    intro i s trace s1 trace1 h
    simp [reapLoop_zero] at h
    obtain ⟨h1, _⟩ := h
    subst h1
    simp
  | succ n ih =>
    intro i s trace s1 trace1 h
    rw [reapLoop_succ] at h
    split at h
    · cases hb : reapBody poll i s with
      | none => simp [hb] at h
      | some r =>
        obtain ⟨s2, ev⟩ := r
        simp only [hb] at h
        have h1 := reapBody_counters poll i s s2 ev hb
        have h2 := ih (i + 1) s2 (trace ++ ev) s1 trace1 h
        omega
    · simp at h
      obtain ⟨h1, _⟩ := h
      subst h1
      simp

/-- The fuel given to the reaper loop is enough: any amount of fuel that
covers the distance between the index and the bound gives the same result, so
the loop always ends on its own test. -/
theorem reapLoop_fuel_irrelevant (poll : Nat → Int → WaitRes) (fuel1 : Nat) :
    ∀ (fuel2 i : Nat) (s : Shell) (trace : List Event),
      s.numBGProcesses - i ≤ fuel1 → s.numBGProcesses - i ≤ fuel2 →
      reapLoop poll fuel1 i s trace = reapLoop poll fuel2 i s trace := by
  induction fuel1 with
  | zero =>
    intro fuel2 i s trace h1 _
    have hlt : ¬ (i : Int) < s.numBGProcesses := by omega
    cases fuel2 with
    | zero => rfl
    | succ m => simp [reapLoop_zero, reapLoop_succ, hlt]
  | succ n ih =>
    intro fuel2 i s trace h1 h2
    cases fuel2 with
    | zero =>
      have hlt : ¬ (i : Int) < s.numBGProcesses := by omega
      simp [reapLoop_zero, reapLoop_succ, hlt]
    | succ m =>
      rw [reapLoop_succ, reapLoop_succ]
      split
      · cases hb : reapBody poll i s with
        | none => rfl
        | some r =>
          obtain ⟨s2, ev⟩ := r
          simp only
          have h3 := (reapBody_counters poll i s s2 ev hb).1
          exact ih m (i + 1) s2 (trace ++ ev) (by push_cast; omega) (by push_cast; omega)
      · rfl

theorem reapLoop_unchanged (poll : Nat → Int → WaitRes) (hpoll : ∀ i pid, poll i pid = WaitRes.unchanged)
    (fuel : Nat) :
    ∀ (i : Nat) (s : Shell) (trace : List Event), s.numBGProcesses ≤ MAX_FORKS →
      reapLoop poll fuel i s trace = some (s, trace) := by
  induction fuel with
  | zero => intro i s trace _; rfl
  | succ n ih =>
    intro i s trace hb
    rw [reapLoop_succ]
    split
    · rename_i hlt
      have hi : (i : Int) < MAX_FORKS := by omega
      have : reapBody poll i s = some (s, []) := by
        simp [reapBody, hi, hpoll]
      simp only [this]
      simpa using ih (i + 1) s trace hb
    · rfl

/-- When no poll reports a change the reaper pass leaves the state alone and
prints nothing. -/
theorem reap_unchanged (poll : Nat → Int → WaitRes) (hpoll : ∀ i pid, poll i pid = WaitRes.unchanged)
    (s : Shell) (hb : s.numBGProcesses ≤ MAX_FORKS) : reap poll s = some (s, []) :=
  reapLoop_unchanged poll hpoll _ 0 s [] hb

theorem reap_counters (poll : Nat → Int → WaitRes) (s s1 : Shell) (trace : List Event)
    (h : reap poll s = some (s1, trace)) :
    s1.numBGProcesses ≤ s.numBGProcesses ∧ s1.processesForked ≤ s.processesForked :=
  reapLoop_counters poll _ 0 s [] s1 trace h

/-! ### Wait-status words -/

theorem word_exited (code : Int) (h0 : 0 ≤ code) (h1 : code ≤ 255) :
    WIFSIGNALED (exitedStatus code) = false ∧ WEXITSTATUS (exitedStatus code) = code := by
  have hm : code % 256 = code := Int.emod_eq_of_lt h0 (by omega)
  unfold WIFSIGNALED WEXITSTATUS WTERMSIG exitedStatus
  rw [hm]
  refine ⟨?_, ?_⟩
  · have : code * 256 % 128 = 0 := by omega
    simp [this]
  · have : code * 256 / 256 = code := by omega
    rw [this, hm]

theorem word_signaled (sig : Int) (core : Bool) (h0 : 1 ≤ sig) (h1 : sig ≤ 126) :
    WIFSIGNALED (signaledStatus sig core) = true ∧ WTERMSIG (signaledStatus sig core) = sig := by
  have hm : signaledStatus sig core % 128 = sig := by
    unfold signaledStatus
    cases core <;> simp <;> omega
  unfold WIFSIGNALED WTERMSIG
  rw [hm]
  simp [h0, h1]

theorem WEXITSTATUS_ne_sentinel (w : Int) : WEXITSTATUS w ≠ SIGNAL_KILLED := by
  unfold WEXITSTATUS SIGNAL_KILLED
  omega

/-! ### A foreground command -/

theorem forkAndWait_foreground (env : Env) (s : Shell) (trace : List Event) (p : Parsed) (w : Int)
    (hfork : env.fork ≠ -1 ∧ env.fork ≠ 0) (hfg : p.backgroundProcessFlag = false)
    (hwait : env.waitForeground env.fork = WaitRes.reaped w) :
    ∃ s1 trace1, forkAndWait env s trace p = Outcome.continue s1 trace1 ∧
      s1.processesForked = s.processesForked ∧ s1.numBGProcesses = s.numBGProcesses ∧
      (if WIFSIGNALED w then s1.status = SIGNAL_KILLED ∧ s1.signalNum = WTERMSIG w
       else s1.status = WEXITSTATUS w) := by
  by_cases hsig : WIFSIGNALED w = true
  · simp only [forkAndWait, hfork.1, hfork.2, hfg, hwait, beq_iff_eq, if_false, hsig,
      if_true, Bool.false_eq_true]
    exact ⟨_, _, rfl, by simp, by simp, by simp⟩
  · simp only [forkAndWait, hfork.1, hfork.2, hfg, hwait, beq_iff_eq, if_false, hsig,
      Bool.false_eq_true]
    exact ⟨_, _, rfl, by simp, by simp, by simp⟩

theorem external_opens (env : Env) (s : Shell) (trace : List Event) (p : Parsed)
    (hargs : p.numArgs + 1 ≤ MAX_ARGUMENTS)
    (hin : p.redirectsInput = true → ∃ f, p.inputTarget = some f ∧ env.openInput f ≠ -1)
    (hout : p.redirectsOutput = true → ∃ f, p.outputTarget = some f ∧ env.openOutput f ≠ -1) :
    ∃ trace1, external env s trace p = forkAndWait env s trace1 p := by
  cases hri : p.redirectsInput <;> cases hro : p.redirectsOutput
  · exact ⟨trace, by simp [external, openInputFile, openOutputFile, hargs, hri, hro]⟩
  · obtain ⟨f, hf, hopen⟩ := hout hro
    exact ⟨trace ++ [Event.openOutput f], by simp [external, openInputFile, openOutputFile, hargs, hri, hro, hf, hopen]⟩
  · obtain ⟨f, hf, hopen⟩ := hin hri
    exact ⟨trace ++ [Event.openInput f], by simp [external, openInputFile, openOutputFile, hargs, hri, hro, hf, hopen]⟩
  · obtain ⟨f, hf, hopen⟩ := hin hri
    obtain ⟨g, hg, hopen2⟩ := hout hro
    exact ⟨trace ++ [Event.openInput f, Event.openOutput g],
      by simp [external, openInputFile, openOutputFile, hargs, hri, hro, hf, hopen, hg, hopen2]⟩

/-! ### The fork counter through one iteration -/

theorem AddsWithin.refl (b : Int) (trace : List Event) : AddsWithin b trace trace :=
  fun _ h => Or.inl h

theorem AddsWithin.nil (b : Int) (trace : List Event) : AddsWithin b trace [] := by
  intro e h
  simp at h

theorem AddsWithin.append (b : Int) (trace l : List Event) (h : ∀ e ∈ l, e.forkWithin b) :
    AddsWithin b trace (trace ++ l) := by
  intro e he
  rcases List.mem_append.mp he with h1 | h1
  · exact Or.inl h1
  · exact Or.inr (h e h1)

theorem AddsWithin.trans (b : Int) (t1 t2 t3 : List Event) (h12 : AddsWithin b t1 t2)
    (h23 : AddsWithin b t2 t3) : AddsWithin b t1 t3 := by
  intro e he
  rcases h23 e he with h | h
  · exact h12 e h
  · exact Or.inr h

theorem forkAndWait_counter (env : Env) (s : Shell) (trace : List Event) (p : Parsed) :
    ∀ s1, (forkAndWait env s trace p).shell = some s1 →
      s1.processesForked ≤ s.processesForked + 1 := by
  unfold forkAndWait
  simp only []
  split_ifs <;> intro s1 h1 <;> simp [Outcome.shell] at h1 <;> subst h1 <;> simp <;>
    split <;> simp

theorem forkAndWait_trace (env : Env) (s : Shell) (trace : List Event) (p : Parsed) :
    AddsWithin (s.processesForked + 1) trace (forkAndWait env s trace p).trace := by
  unfold forkAndWait
  simp only []
  split_ifs <;> simp only [Outcome.trace, List.append_assoc] <;>
    first
      | exact AddsWithin.nil _ _
      | (apply AddsWithin.append; simp [Event.forkWithin])

theorem external_counter (env : Env) (s : Shell) (trace : List Event) (p : Parsed) :
    ∀ s1, (external env s trace p).shell = some s1 →
      s1.processesForked ≤ s.processesForked + 1 := by
  intro s1 h1
  unfold external at h1
  by_cases hb : p.numArgs + 1 ≤ MAX_ARGUMENTS
  · simp only [hb, if_true] at h1
    cases hi : openInputFile env p with
    | none => simp [hi, Outcome.shell] at h1
    | some r1 =>
      obtain ⟨inputFile, ev1⟩ := r1
      simp only [hi] at h1
      split at h1
      · simp [Outcome.shell] at h1
        subst h1
        simp
      · cases ho : openOutputFile env p with
        | none => simp [ho, Outcome.shell] at h1
        | some r2 =>
          obtain ⟨outputFile, ev2⟩ := r2
          simp only [ho] at h1
          split at h1
          · simp [Outcome.shell] at h1
            subst h1
            simp
          · split at h1
            · exact forkAndWait_counter env s _ p s1 h1
            · simp [Outcome.shell] at h1
              subst h1
              simp
  · simp [hb, Outcome.shell] at h1

theorem openInputFile_events (env : Env) (p : Parsed) (b : Int) (inputFile : Int)
    (ev : List Event) (h : openInputFile env p = some (inputFile, ev)) :
    ∀ e ∈ ev, e.forkWithin b := by
  unfold openInputFile at h
  split at h
  · cases hf : p.inputTarget with
    | none => simp [hf] at h
    | some f =>
      simp [hf] at h
      obtain ⟨_, h⟩ := h
      subst h
      simp [Event.forkWithin]
  · simp at h
    obtain ⟨_, h⟩ := h
    subst h
    simp

theorem openOutputFile_events (env : Env) (p : Parsed) (b : Int) (outputFile : Int)
    (ev : List Event) (h : openOutputFile env p = some (outputFile, ev)) :
    ∀ e ∈ ev, e.forkWithin b := by
  unfold openOutputFile at h
  split at h
  · cases hf : p.outputTarget with
    | none => simp [hf] at h
    | some f =>
      simp [hf] at h
      obtain ⟨_, h⟩ := h
      subst h
      simp [Event.forkWithin]
  · simp at h
    obtain ⟨_, h⟩ := h
    subst h
    simp

theorem external_trace (env : Env) (s : Shell) (trace : List Event) (p : Parsed) :
    AddsWithin (s.processesForked + 1) trace (external env s trace p).trace := by
  unfold external
  by_cases hb : p.numArgs + 1 ≤ MAX_ARGUMENTS
  · simp only [hb, if_true]
    cases hi : openInputFile env p with
    | none => exact AddsWithin.nil _ _
    | some r1 =>
      obtain ⟨inputFile, ev1⟩ := r1
      have e1 := openInputFile_events env p (s.processesForked + 1) inputFile ev1 hi
      have a1 : AddsWithin (s.processesForked + 1) trace (trace ++ ev1) :=
        AddsWithin.append _ _ _ e1
      simp only
      split
      · simp only [Outcome.trace]
        exact AddsWithin.trans _ _ _ _ a1 (AddsWithin.append _ _ _ (by simp [Event.forkWithin]))
      · cases ho : openOutputFile env p with
        | none => exact AddsWithin.nil _ _
        | some r2 =>
          obtain ⟨outputFile, ev2⟩ := r2
          have e2 := openOutputFile_events env p (s.processesForked + 1) outputFile ev2 ho
          have a2 : AddsWithin (s.processesForked + 1) trace (trace ++ ev1 ++ ev2) :=
            AddsWithin.trans _ _ _ _ a1 (AddsWithin.append _ _ _ e2)
          simp only
          split
          · simp only [Outcome.trace]
            exact AddsWithin.trans _ _ _ _ a2
              (AddsWithin.append _ _ _ (by simp [Event.forkWithin]))
          · split
            · exact AddsWithin.trans _ _ _ _ a2 (forkAndWait_trace env s _ p)
            · simpa only [Outcome.trace] using a2
  · simp only [hb, if_false]
    exact AddsWithin.nil _ _

theorem cdWalk_events (e : CdEnv) (previousDirectory : PrevDir) (b : Int) (segs : List Str) :
    ∀ (cwd : Str) (trace : List Event), (∀ x ∈ trace, x.forkWithin b) →
      ∀ x ∈ (cdWalk e previousDirectory segs cwd trace).trace, x.forkWithin b := by
  induction segs with
  | nil =>
    intro cwd trace h
    simpa [cdWalk] using h
  | cons seg rest ih =>
    intro cwd trace h
    rw [cdWalk]
    split
    · apply ih
      intro x hx
      rcases List.mem_append.mp hx with h1 | h1
      · exact h x h1
      · simp at h1
        subst h1
        simp [Event.forkWithin]
    · intro x hx
      simp only [List.mem_append] at hx
      rcases hx with h1 | h1
      · exact h x h1
      · simp at h1
        rcases h1 with h1 | h1 | h1 <;> subst h1 <;> simp [Event.forkWithin]

theorem smallsh_cd_events (e : CdEnv) (cwd : Str) (numArgs : Int) (userArgs : List Str)
    (b : Int) (r : CdResult) (h : smallsh_cd e cwd numArgs userArgs = some r) :
    ∀ x ∈ r.trace, x.forkWithin b := by
  unfold smallsh_cd at h
  simp only at h
  split at h
  · split at h <;> simp at h <;> subst h <;> simp [Event.forkWithin]
  · split at h
    · split at h
      · simp at h
      · split at h
        · simp at h
          subst h
          intro x hx
          simp only [List.mem_append] at hx
          rcases hx with h1 | h1
          · revert x
            split
            · exact cdWalk_events e _ b _ _ _ (by simp [Event.forkWithin])
            · exact cdWalk_events e _ b _ _ _ (by simp)
          · simp at h1
            subst h1
            simp [Event.forkWithin]
        · simp at h
          subst h
          split
          · exact cdWalk_events e _ b _ _ _ (by simp [Event.forkWithin])
          · exact cdWalk_events e _ b _ _ _ (by simp)
    · simp at h
      subst h
      simp

theorem smallsh_exit_events (n : Int) (a : Nat → Int) (b : Int) :
    ∀ x ∈ smallsh_exit n a, x.forkWithin b := by
  intro x hx
  simp only [smallsh_exit, List.mem_flatMap] at hx
  obtain ⟨i, _, hi⟩ := hx
  simp at hi
  rcases hi with h1 | h1 | h1 <;> subst h1 <;> simp [Event.forkWithin]

theorem dispatch_counter (env : Env) (s : Shell) (trace : List Event) (p : Parsed) :
    ∀ s1, (dispatch env s trace p).shell = some s1 →
      s1.processesForked ≤ s.processesForked + 1 := by
  intro s1 h1
  unfold dispatch at h1
  split at h1
  · simp [Outcome.shell] at h1
  · split at h1
    · split at h1
      · simp [Outcome.shell] at h1
        subst h1
        simp
      · simp [Outcome.shell] at h1
    · split at h1
      · simp [Outcome.shell] at h1
        subst h1
        simp
      · split at h1
        · split at h1
          · simp [Outcome.shell] at h1
          · simp [Outcome.shell] at h1
            subst h1
            simp
        · exact external_counter env s trace p s1 h1

theorem dispatch_trace (env : Env) (s : Shell) (trace : List Event) (p : Parsed) :
    AddsWithin (s.processesForked + 1) trace (dispatch env s trace p).trace := by
  unfold dispatch
  split
  · exact AddsWithin.nil _ _
  · split
    · split
      · exact AddsWithin.append _ _ _ (smallsh_exit_events _ _ _)
      · exact AddsWithin.nil _ _
    · split
      · apply AddsWithin.append
        unfold smallsh_status
        split <;> simp [Event.forkWithin]
      · split
        · split
          · exact AddsWithin.nil _ _
          · rename_i r hr
            exact AddsWithin.append _ _ _ (smallsh_cd_events _ _ _ _ _ r hr)
        · exact external_trace env s trace p

theorem readAndRun_counter (env : Env) (s : Shell) (trace : List Event) :
    ∀ s1, (readAndRun env s trace).shell = some s1 →
      s1.processesForked ≤ s.processesForked + 1 := by
  intro s1 h1
  unfold readAndRun at h1
  split at h1
  · simp [Outcome.shell] at h1
  · simp [Outcome.shell] at h1
    subst h1
    simp
  · split at h1
    · simp [Outcome.shell] at h1
    · exact dispatch_counter env s trace _ s1 h1

theorem readAndRun_trace (env : Env) (s : Shell) (trace : List Event) :
    AddsWithin (s.processesForked + 1) trace (readAndRun env s trace).trace := by
  unfold readAndRun
  split
  · exact AddsWithin.nil _ _
  · exact AddsWithin.refl _ _
  · split
    · exact AddsWithin.nil _ _
    · exact dispatch_trace env s trace _

theorem Event.forkWithin_mono (b c : Int) (hbc : b ≤ c) (e : Event) (h : e.forkWithin b) :
    e.forkWithin c := by
  cases e <;> simp_all [Event.forkWithin]
  omega

theorem reapBody_events (poll : Nat → Int → WaitRes) (i : Nat) (s s1 : Shell) (ev : List Event)
    (b : Int) (h : reapBody poll i s = some (s1, ev)) : ∀ e ∈ ev, e.forkWithin b := by
  unfold reapBody at h
  split at h
  · simp only at h
    split at h
    · simp at h
      obtain ⟨_, h⟩ := h
      subst h
      simp
    · split at h
      · split at h
        · simp at h
        · simp at h
          obtain ⟨_, h⟩ := h
          subst h
          simp [Event.forkWithin]
      · split at h
        · split at h
          · simp at h
          · simp at h
            obtain ⟨_, h⟩ := h
            subst h
            simp [Event.forkWithin]
        · simp at h
          obtain ⟨_, h⟩ := h
          subst h
          simp
  · simp at h

theorem reapLoop_events (poll : Nat → Int → WaitRes) (b : Int) (fuel : Nat) :
    ∀ (i : Nat) (s : Shell) (trace : List Event) (s1 : Shell) (trace1 : List Event),
      reapLoop poll fuel i s trace = some (s1, trace1) → AddsWithin b trace trace1 := by
  induction fuel with
  | zero =>
    intro i s trace s1 trace1 h
    simp [reapLoop_zero] at h
    obtain ⟨_, h⟩ := h
    subst h
    exact AddsWithin.refl _ _
  | succ n ih =>
    intro i s trace s1 trace1 h
    rw [reapLoop_succ] at h
    split at h
    · cases hb : reapBody poll i s with
      | none => simp [hb] at h
      | some r =>
        obtain ⟨s2, ev⟩ := r
        simp only [hb] at h
        exact AddsWithin.trans _ _ _ _
          (AddsWithin.append _ _ _ (reapBody_events poll i s s2 ev b hb))
          (ih (i + 1) s2 (trace ++ ev) s1 trace1 h)
    · simp at h
      obtain ⟨_, h⟩ := h
      subst h
      exact AddsWithin.refl _ _

theorem step_counter (env : Env) (s s1 : Shell) (trace : List Event)
    (h : step env s = Outcome.continue s1 trace) :
    s.processesForked < MAX_FORKS ∧ s1.processesForked ≤ s.processesForked + 1 := by
  unfold step at h
  split at h
  · simp at h
  · rename_i hg
    cases hr : reap env.poll s with
    | none => simp [hr] at h
    | some r =>
      obtain ⟨s0, trace0⟩ := r
      simp only [hr] at h
      have h0 := reap_counters env.poll s s0 trace0 hr
      have h1 := readAndRun_counter env s0 (trace0 ++ [Event.prompt]) s1 (by rw [h]; rfl)
      constructor <;> omega

theorem step_trace (env : Env) (s : Shell) :
    ∀ e ∈ (step env s).trace, e.forkWithin MAX_FORKS := by
  unfold step
  split
  · simp [Outcome.trace, Event.forkWithin]
  · rename_i hg
    cases hr : reap env.poll s with
    | none => simp [Outcome.trace]
    | some r =>
      obtain ⟨s0, trace0⟩ := r
      simp only
      have h0 := reap_counters env.poll s s0 trace0 hr
      have a0 : AddsWithin MAX_FORKS [] trace0 :=
        reapLoop_events env.poll MAX_FORKS _ 0 s [] s0 trace0 hr
      have a1 : AddsWithin MAX_FORKS [] (trace0 ++ [Event.prompt]) :=
        AddsWithin.trans _ _ _ _ a0 (AddsWithin.append _ _ _ (by simp [Event.forkWithin]))
      intro e he
      rcases readAndRun_trace env s0 (trace0 ++ [Event.prompt]) e he with h1 | h1
      · rcases a1 e h1 with h2 | h2
        · simp at h2
        · exact h2
      · exact Event.forkWithin_mono _ _ (by omega) e h1

/-- After `n ≤ 100` background launches without a reap the shell is in
`demoLaunched n`: the ceiling itself is reached by a run of the shell. -/
theorem reachable_demoLaunched (n : Nat) (hn : (n : Int) ≤ MAX_FORKS) :
    Reachable (demoLaunched n) := by
  induction n with
  | zero =>
    have : demoLaunched 0 = Shell.init (fun _ => 0) 0 ['/'] := by
      simp [demoLaunched, demoShell, Shell.init]
    rw [this]
    exact Reachable.init _ _ _
  | succ m ih =>
    have hm : (m : Int) < MAX_FORKS := by push_cast at hn; omega
    have hr := ih (by omega)
    have hreap : reap (demoEnv "x &\n".toList).poll (demoLaunched m) = some (demoLaunched m, []) :=
      reap_unchanged _ (fun _ _ => rfl) _ (by simp [demoLaunched]; omega)
    have hcl : isBlankOrComment "x &\n".toList = some false := by decide
    have htok : tokenize "x &\n".toList =
        some { command := "x".toList, userArgs := [], numArgs := 0, redirectsInput := false,
               redirectsOutput := false, inputTarget := none, outputTarget := none,
               backgroundProcessFlag := true } := by decide
    have hname : strtok "x".toList '\n' = some "x".toList := by decide
    have hg : ¬ (demoLaunched m).processesForked ≥ MAX_FORKS := by
      simp [demoLaunched]; omega
    have hstep : step (demoEnv "x &\n".toList) (demoLaunched m) =
        Outcome.continue (demoLaunched (m + 1))
          ([Event.prompt, Event.fork 7 (m + 1), Event.backgroundPid 7]) := by
      have hm0 : (0 : Int) ≤ m := by omega
      simp only [step, hg, if_false, hreap, readAndRun]
      simp only [demoEnv, hcl, htok, dispatch, hname]
      rw [if_neg (by decide), if_neg (by decide), if_neg (by decide)]
      simp [external, openInputFile, openOutputFile, MAX_ARGUMENTS, forkAndWait, demoLaunched,
        demoShell, Shell.init, hm, hm0]
      funext j
      simp only [setBackground]
      by_cases hj : j = m
      · subst hj; simp
      · simp only [hj, if_false]
        by_cases hlt : j < m
        · have : j < m + 1 := by omega
          simp [hlt, this]
        · have : ¬ j < m + 1 := by omega
          simp [hlt, this]
    exact Reachable.step _ _ _ _ hr hstep

/-! ### The two counters move together -/

theorem reapBody_balance (poll : Nat → Int → WaitRes) (i : Nat) (s s1 : Shell)
    (ev : List Event) (h : reapBody poll i s = some (s1, ev)) :
    s1.processesForked - s1.numBGProcesses = s.processesForked - s.numBGProcesses ∧
    s.numBGProcesses - 1 ≤ s1.numBGProcesses := by
  unfold reapBody at h
  split at h
  · simp only at h
    split at h
    · simp at h
      obtain ⟨h1, _⟩ := h
      subst h1
      cases poll i (s.backgroundProcesses i) <;> simp
    · split at h
      · split at h
        · simp at h
        · rename_i s2 hrem
          simp at h
          obtain ⟨h1, _⟩ := h
          subst h1
          have := removeBackground_counters _ _ _ hrem
          cases hp : poll i (s.backgroundProcesses i) <;> simp [hp] at this <;>
            constructor <;> omega
      · split at h
        · split at h
          · simp at h
          · rename_i s2 hrem
            simp at h
            obtain ⟨h1, _⟩ := h
            subst h1
            have := removeBackground_counters _ _ _ hrem
            cases hp : poll i (s.backgroundProcesses i) <;> simp [hp] at this <;>
              constructor <;> omega
        · simp at h
          obtain ⟨h1, _⟩ := h
          subst h1
          cases poll i (s.backgroundProcesses i) <;> simp
  · simp at h

theorem reapLoop_balance (poll : Nat → Int → WaitRes) (fuel : Nat) :
    ∀ (i : Nat) (s : Shell) (trace : List Event) (s1 : Shell) (trace1 : List Event),
      reapLoop poll fuel i s trace = some (s1, trace1) → 0 ≤ s.numBGProcesses →
      s1.processesForked - s1.numBGProcesses = s.processesForked - s.numBGProcesses ∧
      0 ≤ s1.numBGProcesses := by
  induction fuel with
  | zero =>
    intro i s trace s1 trace1 h h0
    simp [reapLoop_zero] at h
    obtain ⟨h1, _⟩ := h
    subst h1
    exact ⟨rfl, h0⟩
  | succ n ih =>
    intro i s trace s1 trace1 h h0
    rw [reapLoop_succ] at h
    split at h
    · rename_i hlt
      cases hb : reapBody poll i s with
      | none => simp [hb] at h
      | some r =>
        obtain ⟨s2, ev⟩ := r
        simp only [hb] at h
        have h1 := reapBody_balance poll i s s2 ev hb
        have h2 := ih (i + 1) s2 (trace ++ ev) s1 trace1 h (by omega)
        constructor <;> omega
    · simp at h
      obtain ⟨h1, _⟩ := h
      subst h1
      exact ⟨rfl, h0⟩

theorem forkAndWait_balance (env : Env) (s : Shell) (trace : List Event) (p : Parsed) :
    ∀ s1, (forkAndWait env s trace p).shell = some s1 →
      s1.processesForked - s1.numBGProcesses = s.processesForked - s.numBGProcesses ∧
      s.numBGProcesses ≤ s1.numBGProcesses := by
  unfold forkAndWait
  simp only []
  split_ifs <;> intro s1 h1 <;> simp [Outcome.shell] at h1 <;> subst h1 <;> simp <;>
    split <;> simp

theorem external_balance (env : Env) (s : Shell) (trace : List Event) (p : Parsed) :
    ∀ s1, (external env s trace p).shell = some s1 →
      s1.processesForked - s1.numBGProcesses = s.processesForked - s.numBGProcesses ∧
      s.numBGProcesses ≤ s1.numBGProcesses := by
  intro s1 h1
  unfold external at h1
  by_cases hb : p.numArgs + 1 ≤ MAX_ARGUMENTS
  · simp only [hb, if_true] at h1
    cases hi : openInputFile env p with
    | none => simp [hi, Outcome.shell] at h1
    | some r1 =>
      obtain ⟨inputFile, ev1⟩ := r1
      simp only [hi] at h1
      split at h1
      · simp [Outcome.shell] at h1
        subst h1
        simp
      · cases ho : openOutputFile env p with
        | none => simp [ho, Outcome.shell] at h1
        | some r2 =>
          obtain ⟨outputFile, ev2⟩ := r2
          simp only [ho] at h1
          split at h1
          · simp [Outcome.shell] at h1
            subst h1
            simp
          · split at h1
            · exact forkAndWait_balance env s _ p s1 h1
            · simp [Outcome.shell] at h1
              subst h1
              simp
  · simp [hb, Outcome.shell] at h1

theorem dispatch_balance (env : Env) (s : Shell) (trace : List Event) (p : Parsed) :
    ∀ s1, (dispatch env s trace p).shell = some s1 →
      s1.processesForked - s1.numBGProcesses = s.processesForked - s.numBGProcesses ∧
      s.numBGProcesses ≤ s1.numBGProcesses := by
  intro s1 h1
  unfold dispatch at h1
  split at h1
  · simp [Outcome.shell] at h1
  · split at h1
    · split at h1
      · simp [Outcome.shell] at h1
        subst h1
        simp
      · simp [Outcome.shell] at h1
    · split at h1
      · simp [Outcome.shell] at h1
        subst h1
        simp
      · split at h1
        · split at h1
          · simp [Outcome.shell] at h1
          · simp [Outcome.shell] at h1
            subst h1
            simp
        · exact external_balance env s trace p s1 h1

theorem readAndRun_balance (env : Env) (s : Shell) (trace : List Event) :
    ∀ s1, (readAndRun env s trace).shell = some s1 →
      s1.processesForked - s1.numBGProcesses = s.processesForked - s.numBGProcesses ∧
      s.numBGProcesses ≤ s1.numBGProcesses := by
  intro s1 h1
  unfold readAndRun at h1
  split at h1
  · simp [Outcome.shell] at h1
  · simp [Outcome.shell] at h1
    subst h1
    simp
  · split at h1
    · simp [Outcome.shell] at h1
    · exact dispatch_balance env s trace _ s1 h1

theorem step_balance (env : Env) (s s1 : Shell) (trace : List Event)
    (h : step env s = Outcome.continue s1 trace) (h0 : 0 ≤ s.numBGProcesses) :
    s1.processesForked - s1.numBGProcesses = s.processesForked - s.numBGProcesses ∧
    0 ≤ s1.numBGProcesses := by
  unfold step at h
  split at h
  · simp at h
  · cases hr : reap env.poll s with
    | none => simp [hr] at h
    | some r =>
      obtain ⟨s0, trace0⟩ := r
      simp only [hr] at h
      have h1 := reapLoop_balance env.poll _ 0 s [] s0 trace0 hr h0
      have h2 := readAndRun_balance env s0 (trace0 ++ [Event.prompt]) s1 (by rw [h]; rfl)
      constructor <;> omega

/-- At the top of the loop the fork counter equals the number of tracked
background processes, which is never negative. -/
theorem reachable_balance (s : Shell) (hs : Reachable s) :
    s.processesForked = s.numBGProcesses ∧ 0 ≤ s.numBGProcesses := by
  induction hs with
  | init garbage childStatus cwd => simp [Shell.init]
  | step env s s1 trace _ hstep ih =>
    have := step_balance env s s1 trace hstep ih.2
    constructor <;> omega

theorem reachable_counter (s : Shell) (hs : Reachable s) : s.processesForked ≤ MAX_FORKS := by
  induction hs with
  | init garbage childStatus cwd => simp [Shell.init, MAX_FORKS]
  | step env s s1 trace _ hstep ih =>
    have := step_counter env s s1 trace hstep
    omega

theorem reapBody_defined (poll : Nat → Int → WaitRes) (i : Nat) (s : Shell)
    (hi : (i : Int) < s.numBGProcesses) (hb : s.numBGProcesses < MAX_FORKS) :
    ∃ r, reapBody poll i s = some r := by
  have h1 : (i : Int) < MAX_FORKS := by omega
  have h0 : 0 ≤ s.numBGProcesses := by omega
  unfold reapBody
  simp only [h1, if_true]
  split
  · exact ⟨_, rfl⟩
  · split
    · cases hp : poll i (s.backgroundProcesses i) <;>
        simp [removeBackground, h0, hb]
    · split
      · cases hp : poll i (s.backgroundProcesses i) <;>
          simp [removeBackground, h0, hb]
      · exact ⟨_, rfl⟩

theorem reapLoop_defined (poll : Nat → Int → WaitRes) (fuel : Nat) :
    ∀ (i : Nat) (s : Shell) (trace : List Event), s.numBGProcesses < MAX_FORKS →
      ∃ r, reapLoop poll fuel i s trace = some r := by
  induction fuel with
  | zero => intro i s trace _; exact ⟨_, rfl⟩
  | succ n ih =>
    intro i s trace hb
    rw [reapLoop_succ]
    split
    · rename_i hlt
      obtain ⟨r, hr⟩ := reapBody_defined poll i s hlt hb
      obtain ⟨s2, ev⟩ := r
      have := reapBody_counters poll i s s2 ev hr
      simp only [hr]
      exact ih (i + 1) s2 (trace ++ ev) (by omega)
    · exact ⟨_, rfl⟩

/-- Past the fork-bomb guard the reaper of a reachable state stays inside the
array: it returns a state whose counters are still equal and below the
ceiling. -/
theorem reap_reachable (poll : Nat → Int → WaitRes) (s : Shell) (hs : Reachable s)
    (hguard : s.processesForked < MAX_FORKS) :
    ∃ s0 trace0, reap poll s = some (s0, trace0) ∧
      s0.processesForked = s0.numBGProcesses ∧ 0 ≤ s0.numBGProcesses ∧
      s0.processesForked < MAX_FORKS := by
  obtain ⟨hbal, h0⟩ := reachable_balance s hs
  obtain ⟨r, hr⟩ := reapLoop_defined poll s.numBGProcesses.toNat 0 s [] (by omega)
  obtain ⟨s0, trace0⟩ := r
  have h1 := reapLoop_balance poll _ 0 s [] s0 trace0 hr h0
  have h2 := reapLoop_counters poll _ 0 s [] s0 trace0 hr
  exact ⟨s0, trace0, hr, by omega, h1.2, by omega⟩

/-! ### The segment walk of `cd` -/

/-- The walk changes into the segments in order and stops at the first one
that fails: it reports that segment, calls `chdir(previousDirectory)` and
yields 1; no later segment is attempted. -/
theorem cdWalk_first_failure (e : CdEnv) (previousDirectory : PrevDir) (bad : Str)
    (rest : List Str) (ok : List Str) :
    ∀ (cwd d : Str) (trace : List Event), resolveSegments e cwd ok = some d →
      e.chdir d bad = none →
      cdWalk e previousDirectory (ok ++ bad :: rest) cwd trace =
        { status := 1, cwd := chdirPrevious e previousDirectory d,
          trace := trace ++ ok.map Event.chdir ++
            [Event.chdir bad, Event.perror bad, Event.chdirPrevious] } := by
  induction ok with
  | nil =>
    intro cwd d trace hok hbad
    simp [resolveSegments] at hok
    subst hok
    simp [cdWalk, hbad]
  | cons seg segs ih =>
    intro cwd d trace hok hbad
    rw [resolveSegments] at hok
    cases hc : e.chdir cwd seg with
    | none => simp [hc] at hok
    | some cwd1 =>
      simp only [hc] at hok
      have := ih cwd1 d (trace ++ [Event.chdir seg]) hok hbad
      rw [List.cons_append, cdWalk]
      simp only [hc]
      rw [this]
      simp

/-- When `previousDirectory` happens to refer to writable storage, the path of
the working directory fits into it and that path still leads back, a failed
walk ends in the directory the call started in, with result 1. -/
theorem smallsh_cd_failed_walk_with_storage (e : CdEnv) (cwd arg old bad d : Str)
    (ok rest : List Str)
    (hprev : e.previousDirectory = PrevDir.storage old)
    (hfit : cwd.length < MAX_PATH_LENGTH)
    (hsegs : (if strncmp1 arg '/' then strtokAll '/' arg.tail else strtokAll '/' arg) =
      ok ++ bad :: rest)
    (hok : resolveSegments e
      (if strncmp1 arg '/' then (e.chdir cwd ['/']).getD cwd else cwd) ok = some d)
    (hbad : e.chdir d bad = none)
    (hback : e.chdir d cwd = some cwd) :
    (smallsh_cd e cwd 1 [arg]).map (fun r => (r.status, r.cwd)) = some (1, cwd) := by
  have hsave : getcwd e.previousDirectory cwd = PrevDir.storage cwd := by
    simp [getcwd, hprev, hfit]
  have hsave2 : getcwd (PrevDir.storage cwd) cwd = PrevDir.storage cwd := by
    simp [getcwd, hfit]
  by_cases habs : strncmp1 arg '/' = true
  · simp only [habs, if_true] at hsegs hok
    simp [smallsh_cd, habs, hsegs, hsave,
      cdWalk_first_failure e _ bad rest ok _ d _ hok hbad, chdirPrevious, hback]
  · simp only [Bool.not_eq_true] at habs
    simp only [habs, Bool.false_eq_true, if_false] at hsegs hok
    simp [smallsh_cd, habs, hsegs, hsave, hsave2,
      cdWalk_first_failure e _ bad rest ok _ d _ hok hbad, chdirPrevious, hback]

/-- In the small file system, `cd /a/b` issued in a directory whose path does
not fit into `MAX_PATH_LENGTH` bytes, with `previousDirectory` referring to
empty storage: nothing is saved and the walk ends in `/a`. -/
theorem smallsh_cd_long_path (cwd : Str) (hfit : ¬ cwd.length < MAX_PATH_LENGTH) :
    smallsh_cd (demoCd (PrevDir.storage [])) cwd 1 ["/a/b".toList] =
      some { status := 1, cwd := "/a".toList,
             trace := [Event.chdir "/".toList, Event.chdir "a".toList, Event.chdir "b".toList,
                       Event.perror "b".toList, Event.chdirPrevious] } := by
  have hsegs : strtokAll '/' "/a/b".toList.tail = ["a".toList, "b".toList] := by decide
  have h0 : demoChdir cwd "/".toList = some "/".toList := rfl
  have h1 : demoChdir "/".toList "a".toList = some "/a".toList := by decide
  have h2 : demoChdir "/a".toList "b".toList = none := by decide
  have h3 : demoChdir "/a".toList [] = none := by decide
  have habs : strncmp1 "/a/b".toList '/' = true := by decide
  have hsave : getcwd (PrevDir.storage []) cwd = PrevDir.storage [] := by
    simp [getcwd, hfit]
  have hwalk : cdWalk (demoCd (PrevDir.storage [])) (PrevDir.storage [])
      ["a".toList, "b".toList] "/".toList [Event.chdir "/".toList] =
      { status := 1, cwd := "/a".toList,
        trace := [Event.chdir "/".toList, Event.chdir "a".toList, Event.chdir "b".toList,
                  Event.perror "b".toList, Event.chdirPrevious] } := by decide
  unfold smallsh_cd
  simp only [demoCd, hsave, habs, hsegs, h0]
  simpa [demoCd] using hwalk

/-! ### A background process that exited -/

/-- The reaper body on a process that exited with code `code`: the recorded
status is `code`, the value handed to the `exit value %d` message is the whole
status word `code * 256`. -/
theorem reapBody_exited (poll : Nat → Int → WaitRes) (i : Nat) (s : Shell) (code : Int)
    (hi : (i : Int) < s.numBGProcesses) (hb : s.numBGProcesses < MAX_FORKS)
    (h0 : 0 ≤ code) (h1 : code ≤ 255)
    (hpoll : poll i (s.backgroundProcesses i) = WaitRes.reaped (exitedStatus code)) :
    ∃ s1, reapBody poll i s =
        some (s1, [Event.bgDoneExit (s.backgroundProcesses i) (code * 256)]) ∧
      s1.status = code := by
  have hlt : (i : Int) < MAX_FORKS := by omega
  have hnn : 0 ≤ s.numBGProcesses := by omega
  have hm : code % 256 = code := Int.emod_eq_of_lt h0 (by omega)
  have hw : exitedStatus code = code * 256 := by
    unfold exitedStatus
    rw [hm]
  have hex : WIFEXITED (code * 256) = true := by
    unfold WIFEXITED WTERMSIG
    have : code * 256 % 128 = 0 := by omega
    simp [this]
  have hst : WEXITSTATUS (code * 256) = code := by
    unfold WEXITSTATUS
    have : code * 256 / 256 = code := by omega
    rw [this, hm]
  simp only [reapBody, hlt, if_true, hpoll, hw, hex, removeBackground, hnn, hb, and_self]
  rw [if_neg (by simp)]
  exact ⟨_, rfl, hst⟩

/-! ### Where the model is undefined -/

theorem forkAndWait_defined (env : Env) (s : Shell) (trace : List Event) (p : Parsed)
    (h0 : 0 ≤ s.numBGProcesses) (hb : s.numBGProcesses < MAX_FORKS) :
    forkAndWait env s trace p ≠ Outcome.undefined := by
  unfold forkAndWait
  simp only []
  split_ifs <;> simp_all

/-! ### A marker in the place of the command name -/

/-- The first token of a line is always taken as the command name: in `&\n`
the `&` is the command, no argument is collected, the background check (which
needs `numArgs > 0`) does not run, and the command is run in the foreground. -/
theorem tokenize_marker_as_command :
    isBlankOrComment "&\n".toList = some false ∧
    tokenize "&\n".toList =
      some { command := "&\n".toList, userArgs := [], numArgs := 0,
             redirectsInput := false, redirectsOutput := false,
             inputTarget := none, outputTarget := none, backgroundProcessFlag := false } ∧
    (step (demoEnv "&\n".toList) demoShell).trace =
      [Event.prompt, Event.fork 7 1, Event.waitForeground 7] := by
  decide

/-! # The claims -/

/-! ## C1: blank and comment lines -/

/-- C1 (counterexample): the line `\t#x\n` has `#x` as its first
whitespace-delimited token, yet it is not classified as blank-or-comment: its
first `strtok(" ")` token is `\t#x\n`, which does not begin with `#`, so the
line is tokenized and run as an external command (a fork happens). -/
theorem C1_counterexample_tab_before_hash :
    strncmp1 (firstWhitespaceToken "\t#x\n".toList) '#' = true ∧
    isBlankOrComment "\t#x\n".toList = some false ∧
    (step (demoEnv "\t#x\n".toList) demoShell).trace =
      [Event.prompt, Event.fork 7 1, Event.waitForeground 7] := by
  decide

/-- C1 (amended): a line of length at most one, a line made only of
whitespace that holds at least one character other than the blank (such as the
final newline), or a line whose first blank-delimited token begins with `#`, is
classified as blank-or-comment; the rest of the iteration then neither changes
the state nor adds an event (no tokenizing, no built-in, no open, no fork), so
an iteration started in a reachable state below the fork ceiling consists of
the reaper and the prompt only. -/
theorem C1_blank_or_comment_line (env : Env)
    (hline : env.line.length ≤ 1 ∨
      (env.line.all isspace = true ∧ ∃ c ∈ env.line, c ≠ ' ') ∨
      (∃ t ts, strtokAll ' ' env.line = t :: ts ∧ strncmp1 t '#' = true)) :
    isBlankOrComment env.line = some true ∧
    (∀ s trace, readAndRun env s trace = Outcome.continue s trace) ∧
    (∀ s, Reachable s → s.processesForked < MAX_FORKS →
      ∃ s1 trace, reap env.poll s = some (s1, trace) ∧
        step env s = Outcome.continue s1 (trace ++ [Event.prompt])) := by
  have key : isBlankOrComment env.line = some true := by
    unfold isBlankOrComment
    by_cases hlen : env.line.length > 1
    · simp only [hlen, if_true]
      rcases hline with h | ⟨hall, c, hc, hne⟩ | ⟨t, ts, ht, hhash⟩
      · omega
      · cases htok : strtokAll ' ' env.line with
        | nil => exact absurd (strtokAll_eq_nil ' ' env.line htok c hc) hne
        | cons t ts =>
          have hmem : ∀ x ∈ t, isspace x = true := by
            intro x hx
            have := strtokAll_subset ' ' env.line t (by rw [htok]; simp) x hx
            exact (List.all_eq_true.mp hall) x this
          have hcomment : strncmp1 t COMMENT = false := by
            cases t with
            | nil => rfl
            | cons x xs =>
              have hx := hmem x (by simp)
              by_cases hxc : x = '#'
              · subst hxc
                exact absurd hx (by decide)
              · simp [strncmp1, COMMENT, hxc]
          simp [strtok, htok, hcomment, hall]
      · simp [strtok, ht, COMMENT, hhash]
    · simp [hlen]
  refine ⟨key, ?_, ?_⟩
  · intro s trace
    simp [readAndRun, key]
  · intro s hs hguard
    obtain ⟨s1, trace, hreap, _⟩ := reap_reachable env.poll s hs hguard
    have hg : ¬ s.processesForked ≥ MAX_FORKS := by omega
    exact ⟨s1, trace, hreap, by simp [step, hg, hreap, readAndRun, key]⟩

/-- C1 (witness): the comment line `  # note\n`. -/
theorem C1_blank_or_comment_line_witness :
    isBlankOrComment (demoEnv "  # note\n".toList).line = some true ∧
    (∀ s trace, readAndRun (demoEnv "  # note\n".toList) s trace = Outcome.continue s trace) ∧
    (∀ s, Reachable s → s.processesForked < MAX_FORKS →
      ∃ s1 trace, reap (demoEnv "  # note\n".toList).poll s = some (s1, trace) ∧
        step (demoEnv "  # note\n".toList) s = Outcome.continue s1 (trace ++ [Event.prompt])) :=
  C1_blank_or_comment_line (demoEnv "  # note\n".toList)
    (Or.inr (Or.inr ⟨"#".toList, ["note\n".toList], by decide, by decide⟩))

/-! ## C2: plain arguments -/

/-- C3 (counterexample): `cmd > &\n` is neither blank nor a comment and its
last token is a standalone `&`, but that token is captured as the output
target: the background flag stays clear. -/
theorem C3_counterexample_marker_after_operator :
    isBlankOrComment "cmd > &\n".toList = some false ∧
    strtokAll ' ' "cmd > &\n".toList = ["cmd".toList, ">".toList, "&\n".toList] ∧
    (tokenize "cmd > &\n".toList).map
        (fun p => (p.backgroundProcessFlag, p.outputTarget, p.numArgs)) =
      some (false, some "&".toList, 0) := by
  decide

/-- C3 (amended): let the blank-delimited tokens of the line be a command
name, then the tokens `pre`, then a standalone `&` (with or without the line's
newline, possibly followed by a lone newline token): the marker comes after
the command name.  Let `&` not directly follow a token of `pre` that begins
with `<` or `>`, let the loop over `pre` collect the arguments `t.userArgs`
with room left in `userArgs`, and let every requested redirection have a
usable target.  Then the background flag is set, `&` is dropped (`numArgs` is
one less than the number of collected arguments) and the arguments collected
from `pre` are the argument sequence, unchanged and in order. -/
theorem C3_trailing_marker (line cmd amp : Str) (pre trail : List Str) (t : Tok)
    (inT outT : Option Str)
    (hline : strtokAll ' ' line = cmd :: (pre ++ amp :: trail))
    (hamp : amp = ['&'] ∨ amp = ['&', '\n'])
    (htrail : trail = [] ∨ trail = [['\n']])
    (hpre : tokLoop Tok.init pre = some t)
    (hprev : ∀ u, pre.getLast? = some u → strncmp1 u '<' = false ∧ strncmp1 u '>' = false)
    (hroom : t.userArgs.length + 1 < MAX_ARGUMENTS)
    (hin : stripTarget t.redirectsInput t.inputTarget = some inT)
    (hout : stripTarget t.redirectsOutput t.outputTarget = some outT) :
    tokenize line =
      some { command := cmd, userArgs := t.userArgs, numArgs := (t.userArgs ++ [amp]).length - 1,
             redirectsInput := t.redirectsInput, redirectsOutput := t.redirectsOutput,
             inputTarget := inT, outputTarget := outT, backgroundProcessFlag := true } := by
  obtain ⟨hgi, hgo⟩ := tokLoop_pending pre Tok.init t hpre
  have hi : t.getInput = false := by
    rw [hgi]
    cases hl : pre.getLast? with
    | none => rfl
    | some u => simp [(hprev u hl).1]
  have ho : t.getOutput = false := by
    rw [hgo]
    cases hl : pre.getLast? with
    | none => rfl
    | some u => simp [(hprev u hl).2]
  have hamp1 : strncmp1 amp '<' = false ∧ strncmp1 amp '>' = false ∧ leadingSpace amp = false ∧
      strncmp1 amp '&' = true ∧ amp ≠ [] := by
    rcases hamp with h | h <;> subst h <;> decide
  have hstep : tokStep t amp = some { t with userArgs := t.userArgs ++ [amp] } :=
    tokStep_plain t amp hi ho hamp1.1 hamp1.2.1 hamp1.2.2.1 (by omega)
  have htr : tokLoop { t with userArgs := t.userArgs ++ [amp] } trail =
      some { t with userArgs := t.userArgs ++ [amp] } := by
    rcases htrail with h | h
    · subst h; simp [tokLoop]
    · subst h
      have := tokStep_space { t with userArgs := t.userArgs ++ [amp] } ['\n'] hi ho
        (by decide) (by decide) (by decide)
      simp [tokLoop, this]
  have hloop : tokLoop Tok.init (pre ++ amp :: trail) =
      some { t with userArgs := t.userArgs ++ [amp] } := by
    rw [tokLoop_append, hpre]
    simp only [Option.some_bind]
    rw [tokLoop, hstep]
    exact htr
  have hbg : backgroundCheck (t.userArgs ++ [amp]) = some (t.userArgs, true) := by
    have := backgroundCheck_remove (t.userArgs ++ [amp]) amp (by simp) hamp1.2.2.2.2
      hamp1.2.2.1 hamp1.2.2.2.1 (by simpa using hroom)
    simpa using this
  rw [tokenize, hline]
  simp only [hloop]
  simp [hin, hout, hbg]

/-- C3 (witness): `sleep 5 &\n` runs `sleep` with the one argument `5` in the
background. -/
theorem C3_trailing_marker_witness :
    tokenize "sleep 5 &\n".toList =
      some { command := "sleep".toList, userArgs := ["5".toList],
             numArgs := 1,
             redirectsInput := false, redirectsOutput := false,
             inputTarget := none, outputTarget := none, backgroundProcessFlag := true } :=
  C3_trailing_marker "sleep 5 &\n".toList "sleep".toList "&\n".toList ["5".toList] []
    { Tok.init with userArgs := ["5".toList] } none none
    (by decide) (by decide) (by decide) (by decide) (by decide) (by decide) (by decide)
    (by decide)

/-! ## C4: the marker is only looked for in the final argument -/

/-- C4 (counterexample): the final argument of `cmd & &b\n` is `&b`, which is
not exactly `&`; the check compares one character, so the background flag is
set and the final argument is removed. -/
theorem C4_counterexample_first_character :
    (tokLoop Tok.init ["&".toList, "&b\n".toList]).map (fun t => t.userArgs) =
      some ["&".toList, "&b\n".toList] ∧
    (tokenize "cmd & &b\n".toList).map (fun p => (p.backgroundProcessFlag, p.userArgs)) =
      some (true, ["&".toList]) := by
  decide

/-- C4 (amended): let the loop collect the arguments `t.userArgs` from the
tokens after the command, with every requested redirection having a usable
target.  If the final collected argument does not begin with `&` (and holds a
newline at most as its final character), the background flag is not set and no
argument is removed: the argument sequence is the collected one, every
non-final argument verbatim (a mid-line `&` included), the final one with its
newline stripped. -/
theorem C4_marker_only_final (line cmd : Str) (toks : List Str) (t : Tok)
    (inT outT : Option Str)
    (hline : strtokAll ' ' line = cmd :: toks)
    (hloop : tokLoop Tok.init toks = some t)
    (hin : stripTarget t.redirectsInput t.inputTarget = some inT)
    (hout : stripTarget t.redirectsOutput t.outputTarget = some outT)
    (hlast : ∀ a, t.userArgs.getLast? = some a → strncmp1 a '&' = false ∧ '\n' ∉ a.dropLast) :
    tokenize line =
      some { command := cmd, userArgs := chompLast t.userArgs, numArgs := t.userArgs.length,
             redirectsInput := t.redirectsInput, redirectsOutput := t.redirectsOutput,
             inputTarget := inT, outputTarget := outT, backgroundProcessFlag := false } := by
  have hbg : backgroundCheck t.userArgs = some (chompLast t.userArgs, false) := by
    apply backgroundCheck_keep
    intro a ha
    have hmem : a ∈ t.userArgs := List.mem_of_getLast?_eq_some ha
    rcases tokLoop_args toks Tok.init t hloop a hmem with h | ⟨h1, h2⟩
    · simp [Tok.init] at h
    · exact ⟨strtokAll_ne_nil ' ' line a (by rw [hline]; simp [h1]), h2,
        (hlast a ha).1, (hlast a ha).2⟩
  rw [tokenize, hline]
  simp only [hloop]
  simp [hin, hout, hbg, chompLast_length]

/-- C4 (witness): in `echo a & b\n` the `&` is a mid-line argument. -/
theorem C4_marker_only_final_witness :
    tokenize "echo a & b\n".toList =
      some { command := "echo".toList,
             userArgs := ["a".toList, "&".toList, "b".toList], numArgs := 3,
             redirectsInput := false, redirectsOutput := false,
             inputTarget := none, outputTarget := none, backgroundProcessFlag := false } :=
  C4_marker_only_final "echo a & b\n".toList "echo".toList
    ["a".toList, "&".toList, "b\n".toList]
    { Tok.init with userArgs := ["a".toList, "&".toList, "b\n".toList] } none none
    (by decide) (by decide) (by decide) (by decide) (by decide)

/-! ## C5: a repeated redirection operator -/

/-- C5 (code evaluated at the failing input): the capture block clears
`getInput` before the operator test reads it, so the guard `if (!getInput)`
always passes and a repeated `<` re-arms the capture.  For `cmd < < f\n` the
input target ends up as `f` and `f` is no argument; likewise for `>`. -/
theorem C5_repeated_operator_rearms :
    (∀ t tok isArg, (captureInput t tok isArg).1.getInput = false) ∧
    (∀ t tok isArg, (captureOutput t tok isArg).1.getOutput = false) ∧
    (tokenize "cmd < < f\n".toList).map
        (fun p => (p.redirectsInput, p.inputTarget, p.userArgs)) =
      some (true, some "f".toList, []) ∧
    (tokenize "cmd > > f\n".toList).map
        (fun p => (p.redirectsOutput, p.outputTarget, p.userArgs)) =
      some (true, some "f".toList, []) := by
  refine ⟨?_, ?_, by decide, by decide⟩
  · intro t tok isArg
    unfold captureInput
    split <;> simp_all
  · intro t tok isArg
    unfold captureOutput
    split <;> simp_all

/-! ## C6, C7: the directory-change built-in -/

/-- C6 (code evaluated at the failing input): the usage test `numArgs > 1`
sits inside the `numArgs == 1` branch, so a call with two arguments attempts
no directory change, reports nothing and returns 0; the line `cd a b\n` leaves
status 0 and prints only the prompt. -/
theorem C6_cd_two_arguments_returns_zero :
    (∀ (e : CdEnv) (cwd : Str) (userArgs : List Str),
      smallsh_cd e cwd 2 userArgs = some { status := 0, cwd := cwd, trace := [] }) ∧
    (step (demoEnv "cd a b\n".toList) demoShell).trace = [Event.prompt] ∧
    (step (demoEnv "cd a b\n".toList) demoShell).shell.map (fun s => s.status) = some 0 := by
  refine ⟨?_, by decide, by decide⟩
  intro e cwd userArgs
  simp [smallsh_cd]

/-- C7 (code evaluated at the failing input): `cd /a/b` with `/a` present and
`/a/b` missing.  Issued in `/home` while the uninitialised pointer
`previousDirectory` refers to nothing writable: the walk stops at `b` and the
result is 1, but nothing was saved, the restoring `chdir` fails and the
working directory is left at `/a`.  The same happens with writable storage
when the path of the starting directory does not fit into `MAX_PATH_LENGTH`
bytes. -/
theorem C7_cd_failed_walk_not_restored :
    smallsh_cd (demoCd PrevDir.unwritable) "/home".toList 1 ["/a/b".toList] =
      some { status := 1, cwd := "/a".toList,
             trace := [Event.chdir "/".toList, Event.chdir "a".toList, Event.chdir "b".toList,
                       Event.perror "b".toList, Event.chdirPrevious] } ∧
    demoLongDir.length = MAX_PATH_LENGTH ∧
    smallsh_cd (demoCd (PrevDir.storage [])) demoLongDir 1 ["/a/b".toList] =
      some { status := 1, cwd := "/a".toList,
             trace := [Event.chdir "/".toList, Event.chdir "a".toList, Event.chdir "b".toList,
                       Event.perror "b".toList, Event.chdirPrevious] } := by
  have hlen : demoLongDir.length = MAX_PATH_LENGTH := by
    simp [demoLongDir, MAX_PATH_LENGTH]
  exact ⟨by decide, hlen, smallsh_cd_long_path demoLongDir (by omega)⟩

/-! ## C8: `status` after a foreground command -/

/-- C8: from a reachable state below the fork ceiling, an iteration runs an
external command in the foreground (fork succeeds, the wait returns the
child's status word) and the next iteration, in which no poll reports a
change, runs `status`.  Then the first iteration
stores the sentinel 500 exactly when the child was killed by a signal, and the
second prints, after the prompt, the child's exit code if it exited and
`Terminated by signal N` if signal `N` killed it. -/
theorem C8_status_after_foreground (env1 env2 : Env) (s : Shell)
    (p p2 : Parsed) (name : Str) (c : ChildEnd)
    (hreach : Reachable s)
    (hguard : s.processesForked < MAX_FORKS)
    (hclass : isBlankOrComment env1.line = some false)
    (hparse : tokenize env1.line = some p)
    (hname : strtok p.command '\n' = some name)
    (hext : name ≠ "exit".toList ∧ name ≠ "status".toList ∧ name ≠ "cd".toList)
    (hfg : p.backgroundProcessFlag = false)
    (hargs : p.numArgs + 1 ≤ MAX_ARGUMENTS)
    (hin : p.redirectsInput = true → ∃ f, p.inputTarget = some f ∧ env1.openInput f ≠ -1)
    (hout : p.redirectsOutput = true → ∃ f, p.outputTarget = some f ∧ env1.openOutput f ≠ -1)
    (hfork : env1.fork ≠ -1 ∧ env1.fork ≠ 0)
    (hwait : env1.waitForeground env1.fork = WaitRes.reaped c.word)
    (hc : c.wellFormed)
    (hpoll : ∀ i pid, env2.poll i pid = WaitRes.unchanged)
    (hclass2 : isBlankOrComment env2.line = some false)
    (hparse2 : tokenize env2.line = some p2)
    (hname2 : strtok p2.command '\n' = some "status".toList) :
    ∃ s1 trace1 s2, step env1 s = Outcome.continue s1 trace1 ∧
      (s1.status = SIGNAL_KILLED ↔ c.isSignaled = true) ∧
      step env2 s1 = Outcome.continue s2 [Event.prompt, c.report] := by
  obtain ⟨s0, trace0, hreap, hbal0, hnn0, hlt0⟩ := reap_reachable env1.poll s hreach hguard
  have hbound : s0.numBGProcesses ≤ MAX_FORKS := by omega
  obtain ⟨tr, hextl⟩ := external_opens env1 s0 (trace0 ++ [Event.prompt]) p hargs hin hout
  obtain ⟨s1, trace1, hrun, hpf, hbg, hst⟩ :=
    forkAndWait_foreground env1 s0 tr p c.word hfork hfg hwait
  have hcnt := reap_counters env1.poll s s0 trace0 hreap
  have hg1 : ¬ s.processesForked ≥ MAX_FORKS := by omega
  have hstep1 : step env1 s = Outcome.continue s1 trace1 := by
    obtain ⟨e1, e2, e3⟩ := hext
    simp only [step, hg1, hreap, readAndRun, hclass, hparse, dispatch, hname, if_false]
    rw [if_neg e1, if_neg e2, if_neg e3, hextl, hrun]
  have hg2 : ¬ s1.processesForked ≥ MAX_FORKS := by omega
  have hreap2 : reap env2.poll s1 = some (s1, []) :=
    reap_unchanged env2.poll hpoll s1 (by omega)
  have hne : "status".toList ≠ "exit".toList := by decide
  have hstep2 : step env2 s1 =
      Outcome.continue { s1 with status := 0 }
        ([Event.prompt] ++ (smallsh_status s1.status s1.signalNum).1) := by
    simp only [step, hg2, hreap2, readAndRun, hclass2, hparse2, dispatch, hname2, if_false]
    rw [if_neg hne]
    simp
  refine ⟨s1, trace1, { s1 with status := 0 }, hstep1, ?_, ?_⟩
  · cases c with
    | exited code =>
      obtain ⟨h1, h2⟩ := word_exited code hc.1 hc.2
      simp only [ChildEnd.word, h1, Bool.false_eq_true, if_false] at hst
      simp [ChildEnd.isSignaled, hst, WEXITSTATUS_ne_sentinel]
    | signaled sig core =>
      obtain ⟨h1, h2⟩ := word_signaled sig core hc.1 hc.2
      simp only [ChildEnd.word, h1, if_true] at hst
      simp [ChildEnd.isSignaled, hst.1]
  · rw [hstep2]
    cases c with
    | exited code =>
      obtain ⟨h1, h2⟩ := word_exited code hc.1 hc.2
      simp only [ChildEnd.word, h1, Bool.false_eq_true, if_false] at hst
      have hne2 : ¬ code = KILLED_BY_SIGNAL := by
        have := hc.2
        unfold KILLED_BY_SIGNAL
        omega
      simp [smallsh_status, hst, hne2, ChildEnd.report, h2]
    | signaled sig core =>
      obtain ⟨h1, h2⟩ := word_signaled sig core hc.1 hc.2
      simp only [ChildEnd.word, h1, if_true] at hst
      simp [smallsh_status, hst.1, hst.2, ChildEnd.report, h2, SIGNAL_KILLED, KILLED_BY_SIGNAL]

/-- C8 (witness): `ls` exiting with code 7, then `status`, prints `7`; `ls`
killed by signal 9, then `status`, prints `Terminated by signal 9`. -/
theorem C8_status_after_foreground_witness :
    (∃ s1 trace1 s2,
      step (demoEnvChild "ls\n".toList (ChildEnd.exited 7)) demoShell =
        Outcome.continue s1 trace1 ∧
      (s1.status = SIGNAL_KILLED ↔ (ChildEnd.exited 7).isSignaled = true) ∧
      step (demoEnv "status\n".toList) s1 =
        Outcome.continue s2 [Event.prompt, (ChildEnd.exited 7).report]) ∧
    (∃ s1 trace1 s2,
      step (demoEnvChild "ls\n".toList (ChildEnd.signaled 9 false)) demoShell =
        Outcome.continue s1 trace1 ∧
      (s1.status = SIGNAL_KILLED ↔ (ChildEnd.signaled 9 false).isSignaled = true) ∧
      step (demoEnv "status\n".toList) s1 =
        Outcome.continue s2 [Event.prompt, (ChildEnd.signaled 9 false).report]) ∧
    (ChildEnd.exited 7).report.stdout = "7\n" ∧
    (ChildEnd.signaled 9 false).report.stdout = "Terminated by signal 9\n" :=
  ⟨C8_status_after_foreground (demoEnvChild "ls\n".toList (ChildEnd.exited 7))
      (demoEnv "status\n".toList) demoShell
      { command := "ls\n".toList, userArgs := [], numArgs := 0, redirectsInput := false,
        redirectsOutput := false, inputTarget := none, outputTarget := none,
        backgroundProcessFlag := false }
      { command := "status\n".toList, userArgs := [], numArgs := 0, redirectsInput := false,
        redirectsOutput := false, inputTarget := none, outputTarget := none,
        backgroundProcessFlag := false }
      "ls".toList (ChildEnd.exited 7)
      (Reachable.init _ _ _) (by decide) (by decide) (by decide) (by decide) (by decide) rfl
      (by decide) (fun h => absurd h (by decide)) (fun h => absurd h (by decide))
      (by decide) rfl ⟨by decide, by decide⟩ (fun _ _ => rfl) (by decide) (by decide)
      (by decide),
   C8_status_after_foreground (demoEnvChild "ls\n".toList (ChildEnd.signaled 9 false))
      (demoEnv "status\n".toList) demoShell
      { command := "ls\n".toList, userArgs := [], numArgs := 0, redirectsInput := false,
        redirectsOutput := false, inputTarget := none, outputTarget := none,
        backgroundProcessFlag := false }
      { command := "status\n".toList, userArgs := [], numArgs := 0, redirectsInput := false,
        redirectsOutput := false, inputTarget := none, outputTarget := none,
        backgroundProcessFlag := false }
      "ls".toList (ChildEnd.signaled 9 false)
      (Reachable.init _ _ _) (by decide) (by decide) (by decide) (by decide) (by decide) rfl
      (by decide) (fun h => absurd h (by decide)) (fun h => absurd h (by decide))
      (by decide) rfl ⟨by decide, by decide⟩ (fun _ _ => rfl) (by decide) (by decide)
      (by decide), by decide, by decide⟩

/-! ## C9: the reaper -/

/-- C9 (code evaluated at the failing input): tracked set `[11, 22]`, 11 has
exited, 22 has not.  The removal copies `backgroundProcesses[numBGProcesses]`
(the slot behind the tracked entries, here 0) over slot 0 and shortens the
set, so afterwards the tracked set is `[0]`: 22 is no longer tracked. -/
theorem C9_reaper_drops_unchanged_process :
    demoTwoBackground.tracked = [11, 22] ∧
    demoPoll 1 22 = WaitRes.unchanged ∧
    (reap demoPoll demoTwoBackground).map (fun r => (r.1.tracked, r.2)) =
      some ([0], [Event.bgDoneExit 11 0]) := by
  decide

/-! ## C10: the fork counter never exceeds the ceiling -/

/-- C10: in every state the shell reaches at the top of its loop
`processesForked` is at most `MAX_FORKS`; when it has reached `MAX_FORKS` the
iteration is `exit(1)` after the fatal message alone, whatever the environment
would have answered (nothing is reaped, no line is read); and in an iteration
started from any state, the value the counter takes right after a `fork()` is
at most `MAX_FORKS` too. -/
theorem C10_fork_counter_bounded :
    (∀ s, Reachable s → s.processesForked ≤ MAX_FORKS) ∧
    (∀ env s, s.processesForked ≥ MAX_FORKS →
      step env s = Outcome.exit 1 s [Event.tooManyForks]) ∧
    (∀ env s, ∀ e ∈ (step env s).trace, e.forkWithin MAX_FORKS) := by
  refine ⟨reachable_counter, ?_, ?_⟩
  · intro env s hs
    simp [step, hs]
  · intro env s
    exact step_trace env s

/-- C10 (witness): the state after 100 unreaped background launches is
reached, holds the counter at the ceiling, and the next iteration exits with
code 1. -/
theorem C10_fork_counter_bounded_witness :
    (demoLaunched 100).processesForked ≤ MAX_FORKS ∧
    step (demoEnv "ls\n".toList) (demoLaunched 100) =
      Outcome.exit 1 (demoLaunched 100) [Event.tooManyForks] :=
  ⟨C10_fork_counter_bounded.1 _ (reachable_demoLaunched 100 (by decide)),
   C10_fork_counter_bounded.2.1 _ _ (by decide)⟩

/-! ## C11: a failed fork -/

/-- C11 (code evaluated at the failing input): after `fork()` returned -1 the
code sets the status to 1 and then goes on as if a child existed.  In the
foreground it calls `waitpid(-1, ...)` and overwrites the status with what
`childStatus` holds: for `ls\n` on a fresh shell the status at the next prompt
is 0.  In the background it stores -1 in `backgroundProcesses[numBGProcesses]`
and increments `numBGProcesses`: for `ls &\n` the tracked set becomes `[-1]`. -/
theorem C11_fork_failure_proceeds :
    (∀ (env : Env) (s : Shell) (trace : List Event) (p : Parsed),
      Event.waitForeground (-1) ∈
        (forkAndWait { env with fork := -1 } s trace
          { p with backgroundProcessFlag := false }).trace) ∧
    (∀ (env : Env) (s : Shell) (trace : List Event) (p : Parsed),
      (forkAndWait { env with fork := -1 } s trace
          { p with backgroundProcessFlag := true }).shell.map
        (fun s1 => (s1.numBGProcesses, s1.backgroundProcesses s.numBGProcesses.toNat)) =
      if 0 ≤ s.numBGProcesses ∧ s.numBGProcesses < MAX_FORKS then
        some (s.numBGProcesses + 1, -1)
      else none) ∧
    (step (demoEnvForkFails "ls\n".toList) demoShell).trace =
      [Event.prompt, Event.fork (-1) 1, Event.perror "fork".toList,
       Event.waitForeground (-1), Event.perror "wait failed".toList] ∧
    (step (demoEnvForkFails "ls\n".toList) demoShell).shell.map (fun s => s.status) = some 0 ∧
    (step (demoEnvForkFails "ls &\n".toList) demoShell).trace =
      [Event.prompt, Event.fork (-1) 1, Event.perror "fork".toList, Event.backgroundPid (-1)] ∧
    (step (demoEnvForkFails "ls &\n".toList) demoShell).shell.map
        (fun s => (s.status, s.numBGProcesses, s.tracked)) = some (1, 1, [-1]) := by
  refine ⟨?_, ?_, by decide, by decide, by decide, by decide⟩
  · intro env s trace p
    unfold forkAndWait
    simp only []
    split_ifs <;> simp_all [Outcome.trace]
  · intro env s trace p
    unfold forkAndWait
    simp only []
    split_ifs <;> simp_all [Outcome.shell, setBackground]

/-! ## C12: the exit value the reaper reports -/

/-- C12 (code evaluated at the failing input): tracked set `[11, 22]`, process
11 has exited with code 1 (status word 256).  The reaper records 1 as the
status, but the message is built from `childStatus`, not from
`WEXITSTATUS(childStatus)`: it reads `exit value 256`.  With code 255 it reads
`exit value 65280`. -/
theorem C12_background_exit_value_is_status_word :
    (reap (demoPollExit 1) demoTwoBackground).map
        (fun r => (r.1.status, r.2, r.2.map Event.stdout)) =
      some (1, [Event.bgDoneExit 11 256], ["Background PID 11 is done: exit value 256\n"]) ∧
    (reap (demoPollExit 255) demoTwoBackground).map
        (fun r => (r.1.status, r.2, r.2.map Event.stdout)) =
      some (255, [Event.bgDoneExit 11 65280],
        ["Background PID 11 is done: exit value 65280\n"]) := by
  decide

/-! ## C13: the two counters stay equal and inside the array -/

/-- C13: in every state the shell reaches at the top of its loop
`processesForked = numBGProcesses` and `0 ≤ numBGProcesses ≤ MAX_FORKS`;
whatever path an iteration takes, it changes the two counters by the same
amount; and past the fork-bomb guard no access to `backgroundProcesses` leaves
the array: every tracked index is below `MAX_FORKS`, the reaper pass is
defined (it reads `backgroundProcesses[i]` and
`backgroundProcesses[numBGProcesses]` inside the array only) and leaves
`0 ≤ numBGProcesses < MAX_FORKS`, so that the slot a background launch writes
is inside the array as well. -/
theorem C13_counters_balanced :
    (∀ s, Reachable s →
      s.processesForked = s.numBGProcesses ∧ 0 ≤ s.numBGProcesses ∧
      s.numBGProcesses ≤ MAX_FORKS) ∧
    (∀ env s s1 trace, Reachable s → step env s = Outcome.continue s1 trace →
      s1.processesForked - s.processesForked = s1.numBGProcesses - s.numBGProcesses) ∧
    (∀ (env : Env) (s : Shell), Reachable s → s.processesForked < MAX_FORKS →
      (∀ i : Nat, (i : Int) < s.numBGProcesses → (i : Int) < MAX_FORKS) ∧
      ∃ s0 trace0, reap env.poll s = some (s0, trace0) ∧
        0 ≤ s0.numBGProcesses ∧ s0.numBGProcesses < MAX_FORKS ∧
        ∀ trace p, forkAndWait env s0 trace p ≠ Outcome.undefined) := by
  refine ⟨?_, ?_, ?_⟩
  · intro s hs
    have h1 := reachable_balance s hs
    have h2 := reachable_counter s hs
    exact ⟨h1.1, h1.2, by omega⟩
  · intro env s s1 trace hs hstep
    have h1 := reachable_balance s hs
    have h2 := step_balance env s s1 trace hstep h1.2
    omega
  · intro env s hs hguard
    have h1 := reachable_balance s hs
    obtain ⟨s0, trace0, hreap, hbal, hnn, hlt⟩ := reap_reachable env.poll s hs hguard
    refine ⟨fun i hi => by omega, s0, trace0, hreap, hnn, by omega, ?_⟩
    intro trace p
    exact forkAndWait_defined env s0 trace p hnn (by omega)

/-- C13 (witness): the state after 99 unreaped background launches is reached;
its counters are equal, and the next iteration stays inside the array. -/
theorem C13_counters_balanced_witness :
    ((demoLaunched 99).processesForked = (demoLaunched 99).numBGProcesses ∧
      0 ≤ (demoLaunched 99).numBGProcesses ∧ (demoLaunched 99).numBGProcesses ≤ MAX_FORKS) ∧
    ((∀ i : Nat, (i : Int) < (demoLaunched 99).numBGProcesses → (i : Int) < MAX_FORKS) ∧
      ∃ s0 trace0, reap (demoEnv "ls &\n".toList).poll (demoLaunched 99) = some (s0, trace0) ∧
        0 ≤ s0.numBGProcesses ∧ s0.numBGProcesses < MAX_FORKS ∧
        ∀ trace p, forkAndWait (demoEnv "ls &\n".toList) s0 trace p ≠ Outcome.undefined) :=
  ⟨C13_counters_balanced.1 _ (reachable_demoLaunched 99 (by decide)),
   C13_counters_balanced.2.2 (demoEnv "ls &\n".toList) _
     (reachable_demoLaunched 99 (by decide)) (by decide)⟩

end SmallShell
